import Mathlib

/-!
Verification of the blwapp eligibility and persistence core.

The development shallowly embeds the JavaScript source of the repository:
`src/js/storage.js` (versioned state store, deep merge, backup codec),
`src/js/app.js` (age calculator, eligibility filter, diary save chain).
JavaScript values manipulated by the store are embedded as the inductive
type `JsVal`; JS objects become ordered association lists of fields, JS
`undefined` is the constructor `JsVal.undefined`, and property update follows
the JS rule that assigning an existing key keeps its position while a new
key is appended.  The ambient current time (`new Date()` / `toISOString`)
is threaded explicitly as a parameter, matching the spec's design note
that the calculators are deterministic given the current date.
-/

/-- Embedded JavaScript value.  `num` carries an integer (all numbers
occurring in the store are integral); a numeric coercion that produces
`NaN` is represented as `Option.none` at the call sites that use it. -/
inductive JsVal where
  | undefined : JsVal
  | null : JsVal
  | bool : Bool → JsVal
  | num : Int → JsVal
  | str : String → JsVal
  | arr : List JsVal → JsVal
  | obj : List (String × JsVal) → JsVal

namespace JsVal

/-- JS truthiness (`!!v`): `undefined`, `null`, `false`, `0` and the empty
string are falsy; arrays and objects are truthy. -/
def truthy : JsVal → Bool
  | .undefined => false
  | .null => false
  | .bool b => b
  | .num n => n != 0
  | .str s => !s.isEmpty
  | .arr _ => true
  | .obj _ => true

/-- `typeof v === "object"` — true for `null`, arrays and plain objects. -/
def typeofObject : JsVal → Bool
  | .null => true
  | .arr _ => true
  | .obj _ => true
  | _ => false

/-- `isPlainObject` from storage.js: truthy, `typeof === "object"` and
`Object.prototype.toString` equal to `"[object Object]"` — i.e. exactly a
plain object (arrays and `null` excluded). -/
def isPlainObject : JsVal → Bool
  | .obj _ => true
  | _ => false

/-- Strict comparison `v === 1` against the number literal 1. -/
def isNumOne : JsVal → Bool
  | .num n => n == 1
  | _ => false

end JsVal

/-- Field list of an embedded JS object. -/
abbrev JsFields := List (String × JsVal)

/-- Keys of a field list, in order. -/
def keysOf (fs : JsFields) : List String := fs.map Prod.fst

/-- Property lookup on a field list (first occurrence), JS `obj[k]`
with `undefined` for a missing key. -/
def lookupField : JsFields → String → JsVal
  | [], _ => .undefined
  | (k', v) :: rest, k => if k' = k then v else lookupField rest k

/-- Property lookup returning an `Option` (used in specifications). -/
def lookupField? : JsFields → String → Option JsVal
  | [], _ => none
  | (k', v) :: rest, k => if k' = k then some v else lookupField? rest k

/-- JS property read `v[k]`: field lookup on plain objects, `undefined`
otherwise (the store never reads named keys off arrays). -/
def getProp (v : JsVal) (k : String) : JsVal :=
  match v with
  | .obj fs => lookupField fs k
  | _ => .undefined

/-- JS property write `obj[k] = v` / spread override: an existing key is
updated in place, a new key is appended. -/
def setField : JsFields → String → JsVal → JsFields
  | [], k, v => [(k, v)]
  | (k', v') :: rest, k, v =>
      if k' = k then (k, v) :: rest else (k', v') :: setField rest k v

/-- `obj[k] = v` on a plain object, identity on anything else. -/
def setProp (o : JsVal) (k : String) (v : JsVal) : JsVal :=
  match o with
  | .obj fs => .obj (setField fs k v)
  | _ => o

mutual

/-- `mergeDeep(target, source)` from storage.js: if either side is not a
plain object the source wins; otherwise the target's fields are kept and
every source field is written over them, recursing when both the current
value and the source value are plain objects.  `mergeDeep(out[key], value)`
with `out[key]` possibly `undefined` coincides with the source's
`isPlainObject(value) && isPlainObject(out[key]) ? mergeDeep(...) : value`. -/
def mergeDeep : JsVal → JsVal → JsVal
  | .obj tf, .obj sf => .obj (mergeFields tf sf)
  | _, s => s

/-- The field loop of `mergeDeep`: fold the source fields into `out`. -/
def mergeFields : JsFields → JsFields → JsFields
  | out, [] => out
  | out, (k, v) :: rest =>
      mergeFields (setField out k (mergeDeep (lookupField out k) v)) rest

end

mutual

/-- Well-formedness of an embedded JS value: every object level has
distinct keys.  Values produced by `JSON.parse` always satisfy this. -/
def wf : JsVal → Bool
  | .obj fs => (keysOf fs).dedup == keysOf fs && wfFields fs
  | _ => true

/-- Well-formedness of each field value. -/
def wfFields : JsFields → Bool
  | [] => true
  | p :: rest => wf p.2 && wfFields rest

end

/-- The field list of the default state (order as in the source). -/
def defaultFields (now : String) : JsFields :=
  [("version", .num 1),
    ("createdAt", .str now),
    ("updatedAt", .str now),
    ("diary", .obj [("entries", .arr [])]),
    ("allergens", .obj [("statuses", .obj [])]),
    ("milestones", .obj [
      ("seated", .bool false),
      ("noExtrusion", .bool false),
      ("interestInFood", .bool false),
      ("handToMouth", .bool false)]),
    ("babyProfile", .obj [
      ("birthDate", .null),
      ("gestationWeeks", .null),
      ("dueDate", .null)])]

/-- `getDefaultState()` from storage.js. -/
def getDefaultState (now : String) : JsVal :=
  .obj (defaultFields now)

/-- `normalizeState(raw)` from storage.js: non-objects and wrongly versioned
values are replaced wholesale by the defaults; otherwise the raw value is
deep-merged over the defaults and the version and update stamps reset. -/
def normalizeState (now : String) (raw : JsVal) : JsVal :=
  if !(raw.truthy && raw.typeofObject) then getDefaultState now
  else if !(getProp raw "version").isNumOne then getDefaultState now
  else setProp (setProp (mergeDeep (getDefaultState now) raw) "version" (.num 1))
    "updatedAt" (.str now)

/-- The two localStorage slots the store touches: `blwcare.state.v1` and
the legacy `blwcare.history.v1` (`none` = key absent). -/
structure Store where
  state : Option JsVal
  legacy : Option JsVal

/-- `readStateFromStorage()`. -/
def readStateFromStorage (now : String) (st : Store) : JsVal :=
  normalizeState now (st.state.getD .null)

/-- `writeStateToStorage(state)`: normalizes, persists, returns the
persisted value. -/
def writeStateToStorage (now : String) (st : Store) (v : JsVal) : JsVal × Store :=
  let next := normalizeState now v
  (next, { st with state := some next })

/-- `migrateLegacyIfNeeded()`: only when no current-version state exists
and the legacy key holds a non-empty array is a defaulted state with those
diary entries persisted; the legacy key is left untouched. -/
def migrateLegacyIfNeeded (now : String) (st : Store) : Store :=
  if st.state.isSome then st
  else match st.legacy with
    | some (.arr entries) =>
        if entries.isEmpty then st
        else
          let seeded := setProp (getDefaultState now) "diary"
            (setProp (getProp (getDefaultState now) "diary") "entries" (.arr entries))
          (writeStateToStorage now st seeded).2
    | _ => st

/-- `ensureState()`: migrate, read, persist the read state if the slot is
still empty, return the read state. -/
def ensureState (now : String) (st : Store) : JsVal × Store :=
  let st1 := migrateLegacyIfNeeded now st
  let state := readStateFromStorage now st1
  if st1.state.isNone then (state, (writeStateToStorage now st1 state).2)
  else (state, st1)

/-- `StorageApi.getState()`. -/
def getState (now : String) (st : Store) : JsVal × Store :=
  ensureState now st

/-- `StorageApi.setState(partial)`. -/
def setState (now : String) (st : Store) (part : JsVal) : JsVal × Store :=
  let cur := ensureState now st
  let next := mergeDeep cur.1 (if part.isPlainObject then part else .obj [])
  writeStateToStorage now cur.2 next

/-- `StorageApi.resetState()`: both keys removed, then `ensureState`. -/
def resetState (now : String) (_st : Store) : JsVal × Store :=
  ensureState now { state := none, legacy := none }

/-- `StorageApi.exportState()`. -/
def exportState (now : String) (st : Store) : JsVal × Store :=
  ensureState now st

/-- `validateBackupState(candidate)` from storage.js; `some msg` is the
structural error carried by the thrown exception, `none` means valid. -/
def validateBackupState (c : JsVal) : Option String :=
  if !(c.truthy && c.typeofObject) then some "Formato invalido"
  else if !(getProp c "version").isNumOne then some "Version no soportada"
  else if !((getProp c "diary").truthy && (getProp c "diary").typeofObject) then
    some "Falta diary"
  else if !((getProp c "allergens").truthy && (getProp c "allergens").typeofObject) then
    some "Falta allergens"
  else if !((getProp c "milestones").truthy && (getProp c "milestones").typeofObject) then
    some "Falta milestones"
  else if !((getProp c "babyProfile").truthy && (getProp c "babyProfile").typeofObject) then
    some "Falta babyProfile"
  else none

/-- `StorageApi.importState(nextState)`: validation happens before any
write; on failure the error is thrown and the store untouched. -/
def importState (now : String) (st : Store) (doc : JsVal) :
    Except String JsVal × Store :=
  match validateBackupState doc with
  | some e => (.error e, st)
  | none =>
      let st1 := (writeStateToStorage now st doc).2
      let res := ensureState now st1
      (.ok res.1, res.2)

/-- `StorageApi.milestones.isComplete()` reduced to the checklist record it
reads: `!!(m.seated && m.noExtrusion && m.interestInFood && m.handToMouth)`. -/
def isCompleteChecklist (m : JsVal) : Bool :=
  (getProp m "seated").truthy && (getProp m "noExtrusion").truthy &&
    (getProp m "interestInFood").truthy && (getProp m "handToMouth").truthy

/-- `isComplete` as invoked on a full store state. -/
def isCompleteState (s : JsVal) : Bool :=
  isCompleteChecklist (getProp s "milestones")

/-- `StorageApi.allergens.setStatus(allergenId, status)`. -/
def setStatus (now : String) (st : Store) (allergenId status : String) :
    JsVal × Store :=
  if allergenId = "" then ensureState now st
  else
    let cur := ensureState now st
    let statuses :=
      if (getProp (getProp cur.1 "allergens") "statuses").isPlainObject then
        getProp (getProp cur.1 "allergens") "statuses"
      else .obj []
    let spread :=
      match statuses with
      | .obj fs => .obj (setField fs allergenId (.str status))
      | _ => .obj [(allergenId, .str status)]
    setState now cur.2 (.obj [("allergens", .obj [("statuses", spread)])])

/-! ### Age calculator (`src/js/app.js`) -/

/-- A UTC calendar date as read off a JS `Date`: `getUTCFullYear`,
`getUTCMonth` (0-based) and `getUTCDate`. -/
structure UtcDate where
  year : Int
  month : Int
  day : Int
deriving DecidableEq, Repr

/-- `monthsBetweenUtc(startDate, endDate)` from app.js. -/
def monthsBetweenUtc (startDate endDate : UtcDate) : Int :=
  let months := (endDate.year - startDate.year) * 12 + (endDate.month - startDate.month)
  let months := if endDate.day < startDate.day then months - 1 else months
  max 0 months

/-- The baby profile as consumed by `getSafeAgeMonths`.  A date field is
`none` when absent or unparseable by `parseDateInput`; `gestationWeeks`
holds the result of the `Number(...)` coercion, `none` standing for `NaN`
(the stored `null` coerces to `0`, which is likewise not preterm). -/
structure BabyProfile where
  birthDate : Option UtcDate
  gestationWeeks : Option Int
  dueDate : Option UtcDate
deriving DecidableEq, Repr

/-- `getSafeAgeMonths(profile)` from app.js, with "today" explicit.
`none` is the `null` ("unknown") result. -/
def getSafeAgeMonths (p : Option BabyProfile) (today : UtcDate) : Option Int :=
  match p with
  | none => none
  | some profile =>
      match profile.birthDate with
      | none => none
      | some birth =>
          let isPreterm :=
            match profile.gestationWeeks with
            | some g => decide (0 < g) && decide (g < 37)
            | none => false
          let base :=
            match isPreterm, profile.dueDate with
            | true, some due => due
            | _, _ => birth
          some (monthsBetweenUtc base today)

/-- Spec-side formula (§4.2 of the spec): calendar-month difference between
the epoch and today, minus one when today's day-of-month is earlier than
the epoch's, floored at zero. -/
def monthDiffSpec (epoch today : UtcDate) : Int :=
  max 0 ((today.year - epoch.year) * 12 + (today.month - epoch.month) -
    (if today.day < epoch.day then 1 else 0))

/-! ### Eligibility filter (`src/js/app.js`) -/

/-- A catalog summary record; `edad_minima` holds the result of
`Number(f.edad_minima)`, `none` standing for `NaN`. -/
structure Food where
  id : String
  nombre : String
  grupo : String
  edad_minima : Option Int
  es_alergeno : Bool
deriving DecidableEq, Repr

/-- JS `x <= m` where `x` may be `NaN` (`none`): `NaN` comparisons are
false. -/
def nanLe (x : Option Int) (m : Int) : Bool :=
  match x with
  | some v => decide (v ≤ m)
  | none => false

/-- JS `x > m` where `x` may be `NaN` (`none`). -/
def nanGt (x : Option Int) (m : Int) : Bool :=
  match x with
  | some v => decide (m < v)
  | none => false

/-- `getAllowedFoodsBySafeAge()` from app.js, over an explicit catalog and
an explicit safe age (`none` = unknown). -/
def getAllowedFoodsBySafeAge (catalog : List Food) (safeMonths : Option Int) :
    List Food :=
  match safeMonths with
  | none => []
  | some m => catalog.filter (fun f => nanLe f.edad_minima m)

/-- An age bracket from `parseAgeRange`. -/
structure AgeRange where
  min : Int
  maxExclusive : Int
deriving DecidableEq, Repr

/-- Boolean prefix test on character lists. -/
def prefixB : List Char → List Char → Bool
  | [], _ => true
  | _ :: _, [] => false
  | a :: as, b :: bs => a == b && prefixB as bs

/-- Boolean substring test on character lists (JS `String.includes`). -/
def substrB : List Char → List Char → Bool
  | q, [] => q.isEmpty
  | q, c :: cs => prefixB q (c :: cs) || substrB q cs

/-- JS `s.includes(q)`. -/
def jsIncludes (s q : String) : Bool :=
  substrB q.data s.data

/-- Whitespace as recognised by JS `String.prototype.trim`. -/
def isJsSpace (c : Char) : Bool :=
  c == ' ' || c == '\t' || c == '\n' || c == '\r'

/-- JS `s.trim()`. -/
def jsTrim (s : String) : String :=
  ⟨((s.data.dropWhile isJsSpace).reverse.dropWhile isJsSpace).reverse⟩

/-- JS `s.toLowerCase()`. -/
def jsToLower (s : String) : String :=
  ⟨s.data.map Char.toLower⟩

/-- The text-match clause of the `renderFoodList` filter predicate. -/
def foodMatchesQuery (q : String) (f : Food) : Bool :=
  jsIncludes (jsToLower f.nombre) q || jsIncludes (jsToLower f.id) q ||
    jsIncludes (jsToLower f.grupo) q

/-- The filter predicate of `renderFoodList` (app.js lines 213–230): strict
safe-age cut, optional age-bracket narrowing, then the text query.  `q` is
the already trimmed and lowercased query. -/
def renderFoodPred (safeMonths : Int) (range : Option AgeRange) (q : String)
    (f : Food) : Bool :=
  if nanGt f.edad_minima safeMonths then false
  else if (match range with
    | some r =>
        (match f.edad_minima with
         | some v => !(decide (r.min ≤ v) && decide (v < r.maxExclusive))
         | none => true)
    | none => false) then false
  else if q.isEmpty then true
  else foodMatchesQuery q f

/-- The food list rendered by `renderFoodList`: empty when the safe age is
unknown, otherwise the catalog filtered by `renderFoodPred`. -/
def renderFoodItems (catalog : List Food) (safeMonths : Option Int)
    (range : Option AgeRange) (filterText : String) : List Food :=
  match safeMonths with
  | none => []
  | some m => catalog.filter (renderFoodPred m range (jsToLower (jsTrim filterText)))

/-! ### Diary save chain (`renderDayModal` day-save handler, app.js) -/

/-- Outcome of a diary save attempt, named after the spec's §7 taxonomy.
The modals shown by the code map as: milestones-blocked modal ↦
`MilestonesIncomplete`, "Falta perfil" ↦ `ProfileIncomplete`, "Falta dato"
↦ `ValidationError`, "Fuera de rango" ↦ `FoodIneligible`. -/
inductive SaveOutcome where
  | milestonesIncomplete : SaveOutcome
  | profileIncomplete : SaveOutcome
  | validationError : SaveOutcome
  | foodIneligible : SaveOutcome
  | saved : SaveOutcome
deriving DecidableEq, Repr

/-- The day-save click handler's precondition chain
(`ensureCalendarAllowedOrExplain` followed by the inline checks of the
`day-save` listener): milestone gate, safe age known, non-empty trimmed
food id, then the catalog min-age check — which is skipped entirely when
the food id does not resolve in the catalog. -/
def daySaveOutcome (state : JsVal) (safeMonths : Option Int)
    (catalog : List Food) (rawFood : String) : SaveOutcome :=
  if !isCompleteState state then .milestonesIncomplete
  else
    match safeMonths with
    | none => .profileIncomplete
    | some m =>
        let foodId := jsTrim rawFood
        if foodId.isEmpty then .validationError
        else
          match catalog.find? (fun f => f.id == foodId) with
          | some food =>
              match food.edad_minima with
              | some minAge => if decide (m < minAge) then .foodIneligible else .saved
              | none => .saved
          | none => .saved

/-! ### Diary entries and upsert (`src/js/storage.js`, `src/js/app.js`) -/

/-- A diary entry as built by the day-save handler. -/
structure DiaryEntry where
  id : String
  date : String
  foodId : String
  quantity : String
  form : String
  reaction : String
  notes : String
  createdAt : String
  updatedAt : String
deriving DecidableEq, Repr

/-- `StorageApi.diary.upsertEntry(entry)` restricted to the entry-list
transformation it performs (`findIndex` by id, splice-replace or append;
a falsy id leaves the list unchanged). -/
def upsertEntry (entries : List DiaryEntry) (entry : DiaryEntry) :
    List DiaryEntry :=
  if entry.id.isEmpty then entries
  else
    match entries.findIdx? (fun e => e.id == entry.id) with
    | some idx => entries.take idx ++ [entry] ++ entries.drop (idx + 1)
    | none => entries ++ [entry]

/-- Entry construction in the day-save handler: id from the hidden input
(`editing?.id || ""`, trimmed, else a fresh id), form fields defaulted when
falsy, `createdAt` carried over from the entry being edited
(`editing?.createdAt || now`), `updatedAt` stamped with now. -/
def buildDayEntry (editing : Option DiaryEntry)
    (dateStr foodId quantity form reaction notesRaw now freshId : String) :
    DiaryEntry :=
  let tid := jsTrim (match editing with | some e => e.id | none => "")
  { id := if tid.isEmpty then freshId else tid
    date := dateStr
    foodId := foodId
    quantity := if quantity.isEmpty then "exploration" else quantity
    form := if form.isEmpty then "soft_whole" else form
    reaction := if reaction.isEmpty then "neutral" else reaction
    notes := jsTrim notesRaw
    createdAt :=
      match editing with
      | some e => if e.createdAt.isEmpty then now else e.createdAt
      | none => now
    updatedAt := now }

/-- A successful day save, composed as in `renderDayModal`: the edited
entry is looked up among the entries of the displayed date, the entry is
built, and upserted into the full entry list. -/
def daySaveEntries (all : List DiaryEntry) (dateStr : String)
    (editingId : Option String)
    (foodId quantity form reaction notesRaw now freshId : String) :
    List DiaryEntry :=
  let forDate := all.filter (fun e => e.date == dateStr)
  let editing :=
    match editingId with
    | some eid => forDate.find? (fun e => e.id == eid)
    | none => none
  upsertEntry all (buildDayEntry editing dateStr foodId quantity form reaction
    notesRaw now freshId)

/-! ### Claim-side definitions and concrete instances -/

/-- The merged entry Lemma `mergeFields_eq` assigns to a target field:
unchanged when the source lacks the key, otherwise deep-merged with the
source value. -/
def mergedField (src : JsFields) (p : String × JsVal) : String × JsVal :=
  (p.1, match lookupField? src p.1 with
        | none => p.2
        | some v => mergeDeep p.2 v)

/-- `xf` is a merge-absorbed extension of `tf`: it starts with fields
keyed like `tf`, each already absorbing another merge of the corresponding
`tf` value, followed by fields whose keys `tf` does not have. -/
def AbsorbedBy (xf tf : JsFields) : Prop :=
  ∃ x1 x2, xf = x1 ++ x2 ∧
    List.Forall₂ (fun pt px => pt.1 = px.1 ∧ mergeDeep pt.2 px.2 = px.2) tf x1 ∧
    ∀ p ∈ x2, p.1 ∉ keysOf tf

/-- The four required top-level sections of a backup document. -/
def requiredSections : List String :=
  ["diary", "allergens", "milestones", "babyProfile"]

/-- Claim-side defect predicate for an import document (claim C6): the
version tag is missing or differs from 1, or a required section is missing
or not an object-shaped container. -/
def backupDocDefective (doc : JsVal) : Bool :=
  !(getProp doc "version").isNumOne ||
    requiredSections.any
      (fun s => !((getProp doc s).truthy && (getProp doc s).typeofObject))

/-- All four sections of a state are truthy object-shaped values (the
shape `validateBackupState` demands). -/
def sectionsObjectTyped (s : JsVal) : Bool :=
  requiredSections.all
    (fun k => (getProp s k).truthy && (getProp s k).typeofObject)

/-- Claim-side "is not an object" for a persisted raw value (claim C10):
neither an array nor a plain object. -/
def notObjectLike (v : JsVal) : Bool :=
  match v with
  | .arr _ => false
  | .obj _ => false
  | _ => true

/-- Every value persisted in the state slot is well-formed (JSON.parse can
only produce objects with distinct keys). -/
def WfStore (st : Store) : Prop :=
  ∀ r, st.state = some r → wf r = true

/-- A milestones record drawn from the data model: each field is a boolean
or missing. -/
def checklistFieldsTyped (m : JsVal) : Prop :=
  ∀ k ∈ ["seated", "noExtrusion", "interestInFood", "handToMouth"],
    getProp m k = .undefined ∨ getProp m k = .bool true ∨ getProp m k = .bool false

/-- A concrete stored diary entry (id `e1`) used to exercise the upsert
path. -/
def w8e1 : DiaryEntry :=
  ⟨"e1", "2025-01-02", "platano", "exploration", "soft_whole", "neutral",
    "", "C1", "U1"⟩

/-- A second stored diary entry with a distinct id, on another date. -/
def w8e2 : DiaryEntry :=
  ⟨"e2", "2025-01-03", "nuez", "tastes", "mashed", "neutral", "", "C2", "U2"⟩

/-- An edited replacement entry carrying the same id as `w8e1`. -/
def w8E : DiaryEntry :=
  ⟨"e1", "2025-01-02", "aguacate", "tastes", "mashed", "neutral", "ok",
    "C1", "N"⟩

/-! ## Lemmas on field lists -/

theorem keysOf_cons (p : String × JsVal) (rest : JsFields) :
    keysOf (p :: rest) = p.1 :: keysOf rest := rfl

theorem keysOf_append (l1 l2 : JsFields) :
    keysOf (l1 ++ l2) = keysOf l1 ++ keysOf l2 := by
  simp [keysOf]

theorem lookupField_eq (fs : JsFields) (k : String) :
    lookupField fs k = (lookupField? fs k).getD .undefined := by
  induction fs with
  | nil => rfl
  | cons p rest ih =>
      obtain ⟨k', v⟩ := p
      by_cases h : k' = k <;> simp [lookupField, lookupField?, h, ih]

theorem lookupField?_eq_none_iff (fs : JsFields) (k : String) :
    lookupField? fs k = none ↔ k ∉ keysOf fs := by
  induction fs with
  | nil => simp [lookupField?, keysOf]
  | cons p rest ih =>
      obtain ⟨k', v⟩ := p
      rw [keysOf_cons]
      by_cases h : k' = k
      · subst h
        simp [lookupField?]
      · simp only [lookupField?, if_neg h, List.mem_cons]
        rw [ih]
        constructor
        · intro hnot hc
          rcases hc with hc | hc
          · exact h hc.symm
          · exact hnot hc
        · intro hnot hc
          exact hnot (Or.inr hc)

theorem lookupField?_mem (fs : JsFields) (k : String) (v : JsVal)
    (h : lookupField? fs k = some v) : (k, v) ∈ fs := by
  induction fs with
  | nil => simp [lookupField?] at h
  | cons p rest ih =>
      obtain ⟨k', v'⟩ := p
      by_cases hk : k' = k
      · subst hk
        simp [lookupField?] at h
        simp [h]
      · simp [lookupField?, hk] at h
        exact List.mem_cons_of_mem _ (ih h)

theorem mem_keysOf_of_lookup (fs : JsFields) (k : String) (v : JsVal)
    (h : lookupField? fs k = some v) : k ∈ keysOf fs := by
  by_contra hc
  rw [← lookupField?_eq_none_iff] at hc
  rw [h] at hc
  cases hc

theorem lookupField?_of_mem (fs : JsFields) (p : String × JsVal)
    (hmem : p ∈ fs) (hN : (keysOf fs).Nodup) : lookupField? fs p.1 = some p.2 := by
  induction fs with
  | nil => simp at hmem
  | cons q rest ih =>
      obtain ⟨k', v'⟩ := q
      rw [keysOf_cons] at hN
      have hN1 := (List.nodup_cons.mp hN).1
      have hN2 := (List.nodup_cons.mp hN).2
      rcases List.mem_cons.mp hmem with h | h
      · subst h
        simp [lookupField?]
      · have hne : k' ≠ p.1 := by
          intro he
          apply hN1
          rw [he]
          exact List.mem_map.mpr ⟨p, h, rfl⟩
        simpa [lookupField?, hne] using ih h hN2

theorem setField_of_none (fs : JsFields) (k : String) (v : JsVal)
    (h : lookupField? fs k = none) : setField fs k v = fs ++ [(k, v)] := by
  induction fs with
  | nil => rfl
  | cons p rest ih =>
      obtain ⟨k', v'⟩ := p
      by_cases hk : k' = k
      · simp [lookupField?, hk] at h
      · simp [lookupField?, hk] at h
        simp [setField, hk, ih h]

theorem lookupField?_setField_self (fs : JsFields) (k : String) (v : JsVal) :
    lookupField? (setField fs k v) k = some v := by
  induction fs with
  | nil => simp [setField, lookupField?]
  | cons p rest ih =>
      obtain ⟨k', v'⟩ := p
      by_cases hk : k' = k <;> simp [setField, lookupField?, hk, ih]

theorem lookupField?_setField_ne (fs : JsFields) (k k' : String) (v : JsVal)
    (h : k' ≠ k) : lookupField? (setField fs k v) k' = lookupField? fs k' := by
  induction fs with
  | nil => simp [setField, lookupField?, Ne.symm h]
  | cons p rest ih =>
      obtain ⟨k0, v0⟩ := p
      by_cases hk : k0 = k
      · subst hk
        simp [setField, lookupField?, Ne.symm h]
      · by_cases hk' : k0 = k' <;> simp [setField, lookupField?, hk, hk', h, ih]

theorem setField_same (fs : JsFields) (k : String) (v : JsVal)
    (h : lookupField? fs k = some v) : setField fs k v = fs := by
  induction fs with
  | nil => simp [lookupField?] at h
  | cons p rest ih =>
      obtain ⟨k0, v0⟩ := p
      by_cases hk : k0 = k
      · subst hk
        simp [lookupField?] at h
        simp [setField, h]
      · simp [lookupField?, hk] at h
        simp [setField, hk, ih h]

theorem keysOf_setField_of_some (fs : JsFields) (k : String) (v w : JsVal)
    (h : lookupField? fs k = some w) : keysOf (setField fs k v) = keysOf fs := by
  induction fs with
  | nil => simp [lookupField?] at h
  | cons p rest ih =>
      obtain ⟨k0, v0⟩ := p
      by_cases hk : k0 = k
      · subst hk
        simp [setField, keysOf]
      · simp [lookupField?, hk] at h
        simp only [setField, if_neg hk]
        rw [keysOf_cons, keysOf_cons, ih h]

theorem keysOf_setField_of_none (fs : JsFields) (k : String) (v : JsVal)
    (h : lookupField? fs k = none) : keysOf (setField fs k v) = keysOf fs ++ [k] := by
  rw [setField_of_none fs k v h]
  simp [keysOf]

theorem setField_eq_map (fs : JsFields) (k : String) (v w : JsVal)
    (hN : (keysOf fs).Nodup) (h : lookupField? fs k = some w) :
    setField fs k v = fs.map (fun p => if p.1 = k then (k, v) else p) := by
  induction fs with
  | nil => simp [lookupField?] at h
  | cons p rest ih =>
      obtain ⟨k0, v0⟩ := p
      rw [keysOf_cons] at hN
      have hN1 := (List.nodup_cons.mp hN).1
      have hN2 := (List.nodup_cons.mp hN).2
      by_cases hk : k0 = k
      · subst hk
        have hrest : ∀ q ∈ rest, (if q.1 = k0 then (k0, v) else q) = q := by
          intro q hq
          have hne : q.1 ≠ k0 := by
            intro he
            apply hN1
            rw [← he]
            exact List.mem_map.mpr ⟨q, hq, rfl⟩
          simp [hne]
        simp [setField, List.map_congr_left hrest]
      · simp [lookupField?, hk] at h
        simp [setField, hk, ih hN2 h]

theorem setField_append_left (l1 l2 : JsFields) (k : String) (v w : JsVal)
    (h : lookupField? l1 k = some w) :
    setField (l1 ++ l2) k v = setField l1 k v ++ l2 := by
  induction l1 with
  | nil => simp [lookupField?] at h
  | cons p rest ih =>
      obtain ⟨k0, v0⟩ := p
      by_cases hk : k0 = k
      · subst hk
        simp [setField]
      · simp [lookupField?, hk] at h
        simp [setField, hk, ih h]

theorem lookupField?_append_left (l1 l2 : JsFields) (k : String) (w : JsVal)
    (h : lookupField? l1 k = some w) : lookupField? (l1 ++ l2) k = some w := by
  induction l1 with
  | nil => simp [lookupField?] at h
  | cons p rest ih =>
      obtain ⟨k0, v0⟩ := p
      by_cases hk : k0 = k <;> simp_all [lookupField?, hk]

theorem lookupField?_append_right (l1 l2 : JsFields) (k : String)
    (h : lookupField? l1 k = none) : lookupField? (l1 ++ l2) k = lookupField? l2 k := by
  induction l1 with
  | nil => simp
  | cons p rest ih =>
      obtain ⟨k0, v0⟩ := p
      by_cases hk : k0 = k <;> simp_all [lookupField?, hk]

/-! ## Well-formedness lemmas -/

theorem wfFields_iff (fs : JsFields) :
    wfFields fs = true ↔ ∀ p ∈ fs, wf p.2 = true := by
  induction fs with
  | nil => simp [wfFields]
  | cons p rest ih => simp [wfFields, Bool.and_eq_true, ih]

theorem wf_obj_iff (fs : JsFields) :
    wf (.obj fs) = true ↔ (keysOf fs).Nodup ∧ ∀ p ∈ fs, wf p.2 = true := by
  rw [wf, Bool.and_eq_true, wfFields_iff]
  constructor
  · rintro ⟨h1, h2⟩
    exact ⟨List.dedup_eq_self.mp (by simpa using h1), h2⟩
  · rintro ⟨h1, h2⟩
    exact ⟨by simpa using List.dedup_eq_self.mpr h1, h2⟩

theorem wf_of_lookup (fs : JsFields) (k : String) (v : JsVal)
    (h : wf (.obj fs) = true) (hk : lookupField? fs k = some v) : wf v = true :=
  ((wf_obj_iff fs).mp h).2 (k, v) (lookupField?_mem fs k v hk)

theorem wf_keysOf_nodup (fs : JsFields) (h : wf (.obj fs) = true) :
    (keysOf fs).Nodup :=
  ((wf_obj_iff fs).mp h).1

theorem wf_not_obj (v : JsVal) (h : v.isPlainObject = false) : wf v = true := by
  cases v <;> simp [JsVal.isPlainObject] at h ⊢ <;> rfl

theorem mem_setField (fs : JsFields) (k : String) (v : JsVal)
    (p : String × JsVal) (hp : p ∈ setField fs k v) : p ∈ fs ∨ p = (k, v) := by
  induction fs with
  | nil =>
      simp [setField] at hp
      exact Or.inr hp
  | cons q rest ih =>
      obtain ⟨k0, v0⟩ := q
      by_cases hk : k0 = k
      · subst hk
        simp [setField] at hp
        rcases hp with hp | hp
        · exact Or.inr hp
        · exact Or.inl (List.mem_cons_of_mem _ hp)
      · simp only [setField, if_neg hk, List.mem_cons] at hp
        rcases hp with hp | hp
        · exact Or.inl (by simp [hp])
        · rcases ih hp with h | h
          · exact Or.inl (List.mem_cons_of_mem _ h)
          · exact Or.inr h

theorem wf_setField (fs : JsFields) (k : String) (v : JsVal)
    (h : wf (.obj fs) = true) (hv : wf v = true) :
    wf (.obj (setField fs k v)) = true := by
  rcases (wf_obj_iff fs).mp h with ⟨hN, hvals⟩
  apply (wf_obj_iff _).mpr
  constructor
  · cases hl : lookupField? fs k with
    | some w => rw [keysOf_setField_of_some fs k v w hl]; exact hN
    | none =>
        rw [keysOf_setField_of_none fs k v hl]
        have hk : k ∉ keysOf fs := (lookupField?_eq_none_iff fs k).mp hl
        simp [List.nodup_append, hN, hk]
  · intro p hp
    rcases mem_setField fs k v p hp with h | h
    · exact hvals p h
    · rw [h]
      exact hv

/-! ## Characterization of `mergeFields` -/

theorem lookupField?_isNone_of_keys (fs1 fs2 : JsFields) (k : String)
    (h : keysOf fs1 = keysOf fs2) :
    (lookupField? fs1 k).isNone = (lookupField? fs2 k).isNone := by
  by_cases hk : k ∈ keysOf fs1
  · cases h1 : lookupField? fs1 k with
    | none => exact absurd ((lookupField?_eq_none_iff fs1 k).mp h1) (by simp [hk])
    | some w =>
        cases h2 : lookupField? fs2 k with
        | none =>
            have := (lookupField?_eq_none_iff fs2 k).mp h2
            rw [← h] at this
            exact absurd hk this
        | some w2 => rfl
  · have h1 : lookupField? fs1 k = none := (lookupField?_eq_none_iff fs1 k).mpr hk
    have h2 : lookupField? fs2 k = none := by
      apply (lookupField?_eq_none_iff fs2 k).mpr
      rw [← h]
      exact hk
    rw [h1, h2]

theorem mergeFields_eq (src : JsFields) :
    ∀ out : JsFields, (keysOf out).Nodup → (keysOf src).Nodup →
    mergeFields out src = out.map (mergedField src) ++
      src.filter (fun p => (lookupField? out p.1).isNone) := by
  induction src with
  | nil =>
      intro out hNo hNs
      have : ∀ p ∈ out, mergedField [] p = p := by
        intro p hp
        simp [mergedField, lookupField?]
      simp [mergeFields, List.map_congr_left this]
  | cons q rest ih =>
      intro out hNo hNs
      obtain ⟨k, v⟩ := q
      rw [keysOf_cons] at hNs
      have hkrest : k ∉ keysOf rest := (List.nodup_cons.mp hNs).1
      have hNrest : (keysOf rest).Nodup := (List.nodup_cons.mp hNs).2
      have hrestk : lookupField? rest k = none := (lookupField?_eq_none_iff rest k).mpr hkrest
      rw [mergeFields]
      cases hl : lookupField? out k with
      | some w =>
          have hval : lookupField out k = w := by rw [lookupField_eq, hl]; rfl
          have hkeys : keysOf (setField out k (mergeDeep (lookupField out k) v)) = keysOf out :=
            keysOf_setField_of_some out k _ w hl
          rw [ih _ (hkeys ▸ hNo) hNrest]
          have hmap : (setField out k (mergeDeep (lookupField out k) v)).map (mergedField rest)
              = out.map (mergedField ((k, v) :: rest)) := by
            rw [setField_eq_map out k _ w hNo hl, List.map_map]
            apply List.map_congr_left
            intro p hp
            by_cases hpk : p.1 = k
            · have hp2 : p.2 = w := by
                have hpo := lookupField?_of_mem out p hp hNo
                rw [hpk, hl] at hpo
                exact (Option.some_injective _ hpo).symm
              simp only [Function.comp, if_pos hpk, mergedField, hrestk, hval, hp2]
              simp [lookupField?, hpk]
            · simp only [Function.comp, if_neg hpk, mergedField]
              have hlk : lookupField? ((k, v) :: rest) p.1 = lookupField? rest p.1 := by
                simp [lookupField?, Ne.symm hpk]
              rw [hlk]
          rw [hmap]
          have hfilter : rest.filter
                (fun p => (lookupField? (setField out k (mergeDeep (lookupField out k) v)) p.1).isNone)
              = rest.filter (fun p => (lookupField? out p.1).isNone) := by
            apply List.filter_congr
            intro p hp
            exact lookupField?_isNone_of_keys _ _ p.1 hkeys
          rw [hfilter]
          have : List.filter (fun p => (lookupField? out p.1).isNone) ((k, v) :: rest)
              = rest.filter (fun p => (lookupField? out p.1).isNone) := by
            simp [List.filter_cons, hl]
          rw [this]
      | none =>
          have hval : lookupField out k = .undefined := by rw [lookupField_eq, hl]; rfl
          have hmv : mergeDeep JsVal.undefined v = v := by cases v <;> rfl
          have hset : setField out k (mergeDeep (lookupField out k) v) = out ++ [(k, v)] := by
            rw [hval, hmv]
            exact setField_of_none out k _ hl
          have hknot : k ∉ keysOf out := (lookupField?_eq_none_iff out k).mp hl
          have hkeys : keysOf (out ++ [(k, v)]) = keysOf out ++ [k] := by
            rw [keysOf_append]; rfl
          rw [hset, ih _ (by rw [hkeys]; simp [List.nodup_append, hNo, hknot]) hNrest]
          have hmap : (out ++ [(k, v)]).map (mergedField rest)
              = out.map (mergedField ((k, v) :: rest)) ++ [(k, v)] := by
            rw [List.map_append]
            congr 1
            · apply List.map_congr_left
              intro p hp
              have hpk : p.1 ≠ k := by
                intro he
                apply hknot
                rw [← he]
                exact List.mem_map.mpr ⟨p, hp, rfl⟩
              simp only [mergedField]
              have hlk : lookupField? ((k, v) :: rest) p.1 = lookupField? rest p.1 := by
                simp [lookupField?, Ne.symm hpk]
              rw [hlk]
            · simp [mergedField, hrestk]
          rw [hmap]
          have hfilter : rest.filter (fun p => (lookupField? (out ++ [(k, v)]) p.1).isNone)
              = rest.filter (fun p => (lookupField? out p.1).isNone) := by
            apply List.filter_congr
            intro p hp
            have hpk : p.1 ≠ k := by
              intro he
              apply hkrest
              rw [← he]
              exact List.mem_map.mpr ⟨p, hp, rfl⟩
            cases h1 : lookupField? out p.1 with
            | some w => rw [lookupField?_append_left out _ p.1 w h1]
            | none =>
                rw [lookupField?_append_right out _ p.1 h1]
                simp [lookupField?, h1, Ne.symm hpk]
          rw [hfilter]
          have : List.filter (fun p => (lookupField? out p.1).isNone) ((k, v) :: rest)
              = (k, v) :: rest.filter (fun p => (lookupField? out p.1).isNone) := by
            simp [List.filter_cons, hl]
          rw [this]
          simp

/-! ## Merge: basic shape lemmas -/

theorem mergeDeep_obj_obj (tf sf : JsFields) :
    mergeDeep (.obj tf) (.obj sf) = .obj (mergeFields tf sf) := by
  rw [mergeDeep]

theorem mergeDeep_eq_source (t s : JsVal)
    (h : ¬(t.isPlainObject = true ∧ s.isPlainObject = true)) : mergeDeep t s = s := by
  cases t with
  | obj tf =>
      cases s with
      | obj sf => exact absurd ⟨rfl, rfl⟩ h
      | undefined => rfl
      | null => rfl
      | bool b => rfl
      | num n => rfl
      | str s0 => rfl
      | arr xs => rfl
  | undefined => cases s <;> rfl
  | null => cases s <;> rfl
  | bool b => cases s <;> rfl
  | num n => cases s <;> rfl
  | str s0 => cases s <;> rfl
  | arr xs => cases s <;> rfl

theorem jsval_sizeOf_pos (x : JsVal) : 0 < sizeOf x := by
  cases x <;> simp

theorem sizeOf_lookup_lt (sf : JsFields) (k : String) (v : JsVal)
    (h : lookupField? sf k = some v) : sizeOf v < sizeOf (JsVal.obj sf) := by
  have hm := lookupField?_mem sf k v h
  have h2 := List.sizeOf_lt_of_mem hm
  have h3 : sizeOf (k, v) = 1 + sizeOf k + sizeOf v := rfl
  simp only [JsVal.obj.sizeOf_spec]
  omega

/-! ## Merge: self-absorption -/

theorem mergeDeep_self_aux :
    ∀ n : Nat, ∀ x : JsVal, sizeOf x ≤ n → wf x = true → mergeDeep x x = x := by
  intro n
  induction n with
  | zero =>
      intro x hx _
      exact absurd hx (by have := jsval_sizeOf_pos x; omega)
  | succ n ih =>
      intro x hx hw
      by_cases hobj : x.isPlainObject = true
      · cases x with
        | obj fs =>
            have hN := wf_keysOf_nodup fs hw
            rw [mergeDeep_obj_obj, mergeFields_eq fs fs hN hN]
            have hmap : fs.map (mergedField fs) = fs := by
              have : ∀ p ∈ fs, mergedField fs p = p := by
                intro p hp
                have hl := lookupField?_of_mem fs p hp hN
                have hsz : sizeOf p.2 ≤ n := by
                  have := sizeOf_lookup_lt fs p.1 p.2 hl
                  simp only [JsVal.obj.sizeOf_spec] at hx this
                  omega
                have hwp := ((wf_obj_iff fs).mp hw).2 p hp
                simp [mergedField, hl, ih p.2 hsz hwp]
              rw [List.map_congr_left this]
              exact List.map_id fs
            have hfil : fs.filter (fun p => (lookupField? fs p.1).isNone) = [] := by
              rw [List.filter_eq_nil_iff]
              intro p hp
              rw [lookupField?_of_mem fs p hp hN]
              simp
            rw [hmap, hfil, List.append_nil]
        | undefined => simp [JsVal.isPlainObject] at hobj
        | null => simp [JsVal.isPlainObject] at hobj
        | bool b => simp [JsVal.isPlainObject] at hobj
        | num m => simp [JsVal.isPlainObject] at hobj
        | str s0 => simp [JsVal.isPlainObject] at hobj
        | arr xs => simp [JsVal.isPlainObject] at hobj
      · exact mergeDeep_eq_source x x (fun hc => hobj hc.1)

theorem mergeDeep_self (x : JsVal) (hw : wf x = true) : mergeDeep x x = x :=
  mergeDeep_self_aux (sizeOf x) x le_rfl hw

/-! ## Merge: well-formedness preservation -/

theorem keysOf_map_mergedField (src fs : JsFields) :
    keysOf (fs.map (mergedField src)) = keysOf fs := by
  induction fs with
  | nil => rfl
  | cons p rest ih =>
      rw [List.map_cons, keysOf_cons, keysOf_cons, ih]
      rfl

theorem merge_wf_aux :
    ∀ n : Nat, ∀ s t : JsVal, sizeOf s ≤ n → wf t = true → wf s = true →
    wf (mergeDeep t s) = true := by
  intro n
  induction n with
  | zero =>
      intro s t hs _ _
      exact absurd hs (by have := jsval_sizeOf_pos s; omega)
  | succ n ih =>
      intro s t hs hwt hws
      by_cases hst : t.isPlainObject = true ∧ s.isPlainObject = true
      · obtain ⟨ht, hs'⟩ := hst
        cases t with
        | obj tf =>
            cases s with
            | obj sf =>
                have hNt := wf_keysOf_nodup tf hwt
                have hNs := wf_keysOf_nodup sf hws
                rw [mergeDeep_obj_obj, mergeFields_eq sf tf hNt hNs]
                apply (wf_obj_iff _).mpr
                constructor
                · rw [keysOf_append, keysOf_map_mergedField]
                  apply List.Nodup.append hNt
                  · have hsub : List.Sublist
                        (keysOf (sf.filter (fun p => (lookupField? tf p.1).isNone)))
                        (keysOf sf) := List.Sublist.map _ (List.filter_sublist sf)
                    exact List.Nodup.sublist hsub hNs
                  · intro a ha hb
                    rcases List.mem_map.mp hb with ⟨p, hp, hpa⟩
                    have hpred := List.of_mem_filter hp
                    simp only [Option.isNone_iff_eq_none] at hpred
                    have : a ∉ keysOf tf := by
                      rw [← hpa]
                      exact (lookupField?_eq_none_iff tf p.1).mp hpred
                    exact this ha
                · intro p hp
                  rcases List.mem_append.mp hp with hp | hp
                  · rcases List.mem_map.mp hp with ⟨q, hq, hqp⟩
                    rw [← hqp]
                    have hwq := ((wf_obj_iff tf).mp hwt).2 q hq
                    cases hl : lookupField? sf q.1 with
                    | none => simpa [mergedField, hl] using hwq
                    | some v =>
                        have hwv := wf_of_lookup sf q.1 v hws hl
                        have hsz : sizeOf v ≤ n := by
                          have := sizeOf_lookup_lt sf q.1 v hl
                          simp only [JsVal.obj.sizeOf_spec] at hs this
                          omega
                        simpa [mergedField, hl] using ih v q.2 hsz hwq hwv
                  · exact ((wf_obj_iff sf).mp hws).2 p (List.mem_of_mem_filter hp)
            | undefined => simp [JsVal.isPlainObject] at hs'
            | null => simp [JsVal.isPlainObject] at hs'
            | bool b => simp [JsVal.isPlainObject] at hs'
            | num m => simp [JsVal.isPlainObject] at hs'
            | str s0 => simp [JsVal.isPlainObject] at hs'
            | arr xs => simp [JsVal.isPlainObject] at hs'
        | undefined => simp [JsVal.isPlainObject] at ht
        | null => simp [JsVal.isPlainObject] at ht
        | bool b => simp [JsVal.isPlainObject] at ht
        | num m => simp [JsVal.isPlainObject] at ht
        | str s0 => simp [JsVal.isPlainObject] at ht
        | arr xs => simp [JsVal.isPlainObject] at ht
      · rw [mergeDeep_eq_source t s hst]
        exact hws

theorem merge_wf (t s : JsVal) (hwt : wf t = true) (hws : wf s = true) :
    wf (mergeDeep t s) = true :=
  merge_wf_aux (sizeOf s) s t le_rfl hwt hws

/-! ## Merge: absorption -/

theorem map_mergedField_eq_of_decomp (x2 : JsFields) :
    ∀ tf x1 : JsFields, (keysOf (x1 ++ x2)).Nodup → keysOf x1 = keysOf tf →
    (∀ p ∈ tf, ∀ vx, lookupField? x1 p.1 = some vx → mergeDeep p.2 vx = vx) →
    tf.map (mergedField (x1 ++ x2)) = x1 := by
  intro tf
  induction tf with
  | nil =>
      intro x1 _ hkeys _
      have : keysOf x1 = [] := hkeys
      cases x1 with
      | nil => rfl
      | cons p rest => simp [keysOf] at this
  | cons pt tf' ih =>
      intro x1 hNx hkeys habs
      cases x1 with
      | nil => simp [keysOf] at hkeys
      | cons px x1' =>
          rw [keysOf_cons, keysOf_cons] at hkeys
          have hk1 : px.1 = pt.1 := (List.cons.injEq _ _ _ _).mp hkeys |>.1
          have hk2 : keysOf x1' = keysOf tf' := (List.cons.injEq _ _ _ _).mp hkeys |>.2
          rw [List.map_cons]
          have hNx' : (keysOf (x1' ++ x2)).Nodup := by
            rw [List.cons_append, keysOf_cons] at hNx
            exact (List.nodup_cons.mp hNx).2
          have hpx1 : px.1 ∉ keysOf (x1' ++ x2) := by
            rw [List.cons_append, keysOf_cons] at hNx
            exact (List.nodup_cons.mp hNx).1
          have hhead : mergedField (px :: x1' ++ x2) pt = px := by
            have hl : lookupField? (px :: (x1' ++ x2)) pt.1 = some px.2 := by
              simp [lookupField?, hk1]
            have habs0 := habs pt (List.mem_cons_self pt tf') px.2 (by
              simp [lookupField?, hk1])
            simp only [List.cons_append, mergedField, hl, habs0]
            rw [← hk1]
          rw [hhead]
          congr 1
          have hcong : ∀ p ∈ tf', mergedField (px :: x1' ++ x2) p = mergedField (x1' ++ x2) p := by
            intro p hp
            have hpne : px.1 ≠ p.1 := by
              intro he
              apply hpx1
              rw [keysOf_append, he, hk2]
              exact List.mem_append_left _ (List.mem_map.mpr ⟨p, hp, rfl⟩)
            simp only [List.cons_append, mergedField, lookupField?, if_neg hpne]
            rfl
          rw [List.map_congr_left hcong]
          apply ih x1' hNx' hk2
          intro p hp vx hl
          have hpne : px.1 ≠ p.1 := by
            intro he
            apply hpx1
            rw [keysOf_append, he, hk2]
            exact List.mem_append_left _ (List.mem_map.mpr ⟨p, hp, rfl⟩)
          apply habs p (List.mem_cons_of_mem _ hp) vx
          simp [lookupField?, if_neg hpne, hl]

theorem mergeFields_of_decomp (tf x1 x2 : JsFields)
    (hNtf : (keysOf tf).Nodup)
    (hNx : (keysOf (x1 ++ x2)).Nodup)
    (hkeys : keysOf x1 = keysOf tf)
    (habs : ∀ p ∈ tf, ∀ vx, lookupField? x1 p.1 = some vx → mergeDeep p.2 vx = vx)
    (hx2 : ∀ p ∈ x2, p.1 ∉ keysOf tf) :
    mergeFields tf (x1 ++ x2) = x1 ++ x2 := by
  rw [mergeFields_eq (x1 ++ x2) tf hNtf hNx]
  have hmap := map_mergedField_eq_of_decomp x2 tf x1 hNx hkeys habs
  rw [hmap]
  congr 1
  rw [List.filter_append]
  have h1 : x1.filter (fun p => (lookupField? tf p.1).isNone) = [] := by
    rw [List.filter_eq_nil_iff]
    intro p hp
    have hpk : p.1 ∈ keysOf tf := by
      rw [← hkeys]
      exact List.mem_map.mpr ⟨p, hp, rfl⟩
    cases hl : lookupField? tf p.1 with
    | none => exact absurd ((lookupField?_eq_none_iff tf p.1).mp hl) (by simp [hpk])
    | some w => simp
  have h2 : x2.filter (fun p => (lookupField? tf p.1).isNone) = x2 := by
    rw [List.filter_eq_self]
    intro p hp
    rw [(lookupField?_eq_none_iff tf p.1).mpr (hx2 p hp)]
    rfl
  rw [h1, h2, List.nil_append]

theorem mergeDeep_absorb_aux :
    ∀ n : Nat, ∀ s t : JsVal, sizeOf s ≤ n → wf t = true → wf s = true →
    mergeDeep t (mergeDeep t s) = mergeDeep t s := by
  intro n
  induction n with
  | zero =>
      intro s t hs _ _
      exact absurd hs (by have := jsval_sizeOf_pos s; omega)
  | succ n ih =>
      intro s t hs hwt hws
      by_cases hst : t.isPlainObject = true ∧ s.isPlainObject = true
      · obtain ⟨ht, hs'⟩ := hst
        cases t with
        | obj tf =>
            cases s with
            | obj sf =>
                have hNt := wf_keysOf_nodup tf hwt
                have hNs := wf_keysOf_nodup sf hws
                have hwr := merge_wf (.obj tf) (.obj sf) hwt hws
                rw [mergeDeep_obj_obj] at hwr
                rw [mergeDeep_obj_obj, mergeDeep_obj_obj]
                congr 1
                rw [mergeFields_eq sf tf hNt hNs]
                rw [mergeFields_eq sf tf hNt hNs] at hwr
                apply mergeFields_of_decomp tf _ _ hNt
                · exact wf_keysOf_nodup _ hwr
                · exact keysOf_map_mergedField sf tf
                · intro p hp vx hl
                  have hNmap : (keysOf (tf.map (mergedField sf))).Nodup := by
                    rw [keysOf_map_mergedField]
                    exact hNt
                  have hl2 : lookupField? (tf.map (mergedField sf)) p.1
                      = some ((mergedField sf p).2) := by
                    have hmm : mergedField sf p ∈ tf.map (mergedField sf) :=
                      List.mem_map.mpr ⟨p, hp, rfl⟩
                    have := lookupField?_of_mem _ _ hmm hNmap
                    simpa [mergedField] using this
                  have hvx : vx = (mergedField sf p).2 := by
                    rw [hl2] at hl
                    exact (Option.some_injective _ hl).symm
                  subst hvx
                  have hwp := ((wf_obj_iff tf).mp hwt).2 p hp
                  cases hls : lookupField? sf p.1 with
                  | none =>
                      simp only [mergedField, hls]
                      exact mergeDeep_self p.2 hwp
                  | some v =>
                      simp only [mergedField, hls]
                      have hwv := wf_of_lookup sf p.1 v hws hls
                      have hsz : sizeOf v ≤ n := by
                        have := sizeOf_lookup_lt sf p.1 v hls
                        simp only [JsVal.obj.sizeOf_spec] at hs this
                        omega
                      exact ih v p.2 hsz hwp hwv
                · intro p hp
                  have hpred := List.of_mem_filter hp
                  simp only [Option.isNone_iff_eq_none] at hpred
                  exact (lookupField?_eq_none_iff tf p.1).mp hpred
            | undefined => simp [JsVal.isPlainObject] at hs'
            | null => simp [JsVal.isPlainObject] at hs'
            | bool b => simp [JsVal.isPlainObject] at hs'
            | num m => simp [JsVal.isPlainObject] at hs'
            | str s0 => simp [JsVal.isPlainObject] at hs'
            | arr xs => simp [JsVal.isPlainObject] at hs'
        | undefined => simp [JsVal.isPlainObject] at ht
        | null => simp [JsVal.isPlainObject] at ht
        | bool b => simp [JsVal.isPlainObject] at ht
        | num m => simp [JsVal.isPlainObject] at ht
        | str s0 => simp [JsVal.isPlainObject] at ht
        | arr xs => simp [JsVal.isPlainObject] at ht
      · rw [mergeDeep_eq_source t s hst, mergeDeep_eq_source t s hst]

theorem mergeDeep_absorb (t s : JsVal) (hwt : wf t = true) (hws : wf s = true) :
    mergeDeep t (mergeDeep t s) = mergeDeep t s :=
  mergeDeep_absorb_aux (sizeOf s) s t le_rfl hwt hws

/-! ## Normalization lemmas -/

theorem isNumOne_iff (v : JsVal) : v.isNumOne = true ↔ v = .num 1 := by
  cases v <;> simp [JsVal.isNumOne]

theorem wf_default (now : String) : wf (getDefaultState now) = true := rfl

theorem keysOf_defaultFields (now : String) :
    keysOf (defaultFields now) =
      ["version", "createdAt", "updatedAt", "diary", "allergens", "milestones",
        "babyProfile"] := rfl

theorem nodup_defaultFields (now : String) : (keysOf (defaultFields now)).Nodup := by
  rw [keysOf_defaultFields]
  decide

theorem normalizeState_default (now : String) :
    normalizeState now (getDefaultState now) = getDefaultState now := rfl

theorem normalizeState_valid_obj (now : String) (rf : JsFields)
    (hv : lookupField? rf "version" = some (.num 1)) :
    normalizeState now (.obj rf) =
      .obj (setField (setField (mergeFields (defaultFields now) rf) "version" (.num 1))
        "updatedAt" (.str now)) := by
  rw [normalizeState]
  split
  · next hcond => simp [JsVal.truthy, JsVal.typeofObject] at hcond
  · split
    · next hcond =>
        rw [getProp, lookupField_eq, hv] at hcond
        simp [JsVal.isNumOne] at hcond
    · rw [getDefaultState, mergeDeep_obj_obj]
      rfl

theorem normalizeState_cases (now : String) (raw : JsVal) :
    normalizeState now raw = getDefaultState now ∨
    ∃ rf, raw = .obj rf ∧ lookupField? rf "version" = some (.num 1) ∧
      normalizeState now raw =
        .obj (setField (setField (mergeFields (defaultFields now) rf) "version" (.num 1))
          "updatedAt" (.str now)) := by
  cases raw with
  | obj rf =>
      by_cases hv : lookupField? rf "version" = some (.num 1)
      · exact Or.inr ⟨rf, rfl, hv, normalizeState_valid_obj now rf hv⟩
      · left
        rw [normalizeState]
        split
        · rfl
        · split
          · rfl
          · next hc1 hc2 =>
              exfalso
              apply hv
              have hb : (getProp (.obj rf) "version").isNumOne = true := by
                revert hc2
                cases (getProp (.obj rf) "version").isNumOne <;> simp
              rw [getProp, lookupField_eq] at hb
              cases hl : lookupField? rf "version" with
              | none =>
                  rw [hl] at hb
                  simp [JsVal.isNumOne] at hb
              | some w =>
                  rw [hl] at hb
                  simp only [Option.getD] at hb
                  rw [(isNumOne_iff w).mp hb]
  | undefined => exact Or.inl (by simp [normalizeState, JsVal.truthy, JsVal.typeofObject])
  | null => exact Or.inl (by simp [normalizeState, JsVal.truthy, JsVal.typeofObject])
  | bool b =>
      exact Or.inl (by simp [normalizeState, JsVal.truthy, JsVal.typeofObject])
  | num n =>
      exact Or.inl (by simp [normalizeState, JsVal.truthy, JsVal.typeofObject])
  | str s =>
      exact Or.inl (by simp [normalizeState, JsVal.truthy, JsVal.typeofObject])
  | arr xs =>
      exact Or.inl (by
        simp [normalizeState, JsVal.truthy, JsVal.typeofObject, getProp, JsVal.isNumOne])

theorem normalizeState_wf (now : String) (raw : JsVal) (hw : wf raw = true) :
    wf (normalizeState now raw) = true := by
  rcases normalizeState_cases now raw with h | ⟨rf, hraw, hv, h⟩
  · rw [h]
    exact wf_default now
  · rw [h]
    subst hraw
    have hmf : wf (.obj (mergeFields (defaultFields now) rf)) = true := by
      have hh := merge_wf (getDefaultState now) (.obj rf) (wf_default now) hw
      rw [getDefaultState, mergeDeep_obj_obj] at hh
      exact hh
    have h1 := wf_setField _ "version" (.num 1) hmf rfl
    exact wf_setField _ "updatedAt" (.str now) h1 rfl

theorem getProp_normalizeState_version (now : String) (raw : JsVal) :
    getProp (normalizeState now raw) "version" = .num 1 := by
  rcases normalizeState_cases now raw with h | ⟨rf, hraw, hv, h⟩
  · rw [h]
    rfl
  · rw [h, getProp, lookupField_eq]
    rw [lookupField?_setField_ne _ _ _ _ (by decide)]
    rw [lookupField?_setField_self]
    rfl

theorem normalizeState_idem (now : String) (raw : JsVal) (hw : wf raw = true) :
    normalizeState now (normalizeState now raw) = normalizeState now raw := by
  rcases normalizeState_cases now raw with h | ⟨rf, hraw, hv, h⟩
  · rw [h]
    exact normalizeState_default now
  · subst hraw
    rw [h]
    have hNdf := nodup_defaultFields now
    have hNrf := wf_keysOf_nodup rf hw
    have hmfeq := mergeFields_eq rf (defaultFields now) hNdf hNrf
    have hvX : lookupField? (setField (setField (mergeFields (defaultFields now) rf)
        "version" (.num 1)) "updatedAt" (.str now)) "version" = some (.num 1) := by
      rw [lookupField?_setField_ne _ _ _ _ (by decide), lookupField?_setField_self]
    rw [normalizeState_valid_obj now _ hvX]
    have hwX : wf (.obj (setField (setField (mergeFields (defaultFields now) rf)
        "version" (.num 1)) "updatedAt" (.str now))) = true := by
      rw [← h]
      exact normalizeState_wf now (.obj rf) hw
    have hNmap : (keysOf ((defaultFields now).map (mergedField rf))).Nodup := by
      rw [keysOf_map_mergedField]
      exact hNdf
    have hlookmap : ∀ (k : String) (dv : JsVal), (k, dv) ∈ defaultFields now →
        lookupField? ((defaultFields now).map (mergedField rf)) k =
          some ((mergedField rf (k, dv)).2) := by
      intro k dv hmem
      have hmm : mergedField rf (k, dv) ∈ (defaultFields now).map (mergedField rf) :=
        List.mem_map.mpr ⟨(k, dv), hmem, rfl⟩
      have hlm := lookupField?_of_mem _ _ hmm hNmap
      simpa [mergedField] using hlm
    have hlookver : lookupField? ((defaultFields now).map (mergedField rf)) "version" =
        some ((mergedField rf ("version", .num 1)).2) :=
      hlookmap "version" (.num 1) (by simp [defaultFields])
    have hlookupd0 : lookupField? ((defaultFields now).map (mergedField rf)) "updatedAt" =
        some ((mergedField rf ("updatedAt", .str now)).2) :=
      hlookmap "updatedAt" (.str now) (by simp [defaultFields])
    have hupd1 : lookupField? (setField ((defaultFields now).map (mergedField rf))
        "version" (.num 1)) "updatedAt" = some ((mergedField rf ("updatedAt", .str now)).2) := by
      rw [lookupField?_setField_ne _ _ _ _ (by decide)]
      exact hlookupd0
    have hdecomp : setField (setField (mergeFields (defaultFields now) rf) "version" (.num 1))
          "updatedAt" (.str now)
        = setField (setField ((defaultFields now).map (mergedField rf)) "version" (.num 1))
            "updatedAt" (.str now)
          ++ rf.filter (fun p => (lookupField? (defaultFields now) p.1).isNone) := by
      rw [hmfeq]
      rw [setField_append_left _ _ _ _ _ hlookver]
      rw [setField_append_left _ _ _ _ _ hupd1]
    have hsec : ∀ (k : String) (dv : JsVal), k ≠ "version" → k ≠ "updatedAt" →
        (k, dv) ∈ defaultFields now → wf dv = true →
        ∀ vx, lookupField? (setField (setField ((defaultFields now).map (mergedField rf))
          "version" (.num 1)) "updatedAt" (.str now)) k = some vx →
        mergeDeep dv vx = vx := by
      intro k dv hk1 hk2 hmem hwdv vx hlx
      rw [lookupField?_setField_ne _ _ _ _ hk2, lookupField?_setField_ne _ _ _ _ hk1,
        hlookmap k dv hmem] at hlx
      have hvx := Option.some_injective _ hlx
      rw [← hvx]
      cases hls : lookupField? rf k with
      | none =>
          simp only [mergedField, hls]
          exact mergeDeep_self dv hwdv
      | some v =>
          simp only [mergedField, hls]
          exact mergeDeep_absorb dv v hwdv (wf_of_lookup rf k v hw hls)
    have hstep1 : mergeFields (defaultFields now)
        (setField (setField (mergeFields (defaultFields now) rf) "version" (.num 1))
          "updatedAt" (.str now))
        = setField (setField (mergeFields (defaultFields now) rf) "version" (.num 1))
          "updatedAt" (.str now) := by
      rw [hdecomp]
      apply mergeFields_of_decomp _ _ _ hNdf
      · rw [← hdecomp]
        exact wf_keysOf_nodup _ hwX
      · have h1 : keysOf (setField ((defaultFields now).map (mergedField rf))
            "version" (.num 1)) = keysOf ((defaultFields now).map (mergedField rf)) :=
          keysOf_setField_of_some _ _ _ _ hlookver
        have h2 := keysOf_setField_of_some _ "updatedAt" (JsVal.str now) _ hupd1
        rw [h2, h1, keysOf_map_mergedField]
      · intro p hp vx hlx
        simp only [defaultFields, List.mem_cons, List.not_mem_nil, or_false] at hp
        rcases hp with hp | hp | hp | hp | hp | hp | hp <;> subst hp
        · exact mergeDeep_eq_source _ vx
            (fun hc => by simpa [JsVal.isPlainObject] using hc.1)
        · exact mergeDeep_eq_source _ vx
            (fun hc => by simpa [JsVal.isPlainObject] using hc.1)
        · exact mergeDeep_eq_source _ vx
            (fun hc => by simpa [JsVal.isPlainObject] using hc.1)
        · exact hsec "diary" (.obj [("entries", .arr [])]) (by decide) (by decide)
            (by simp [defaultFields]) rfl vx hlx
        · exact hsec "allergens" (.obj [("statuses", .obj [])]) (by decide) (by decide)
            (by simp [defaultFields]) rfl vx hlx
        · exact hsec "milestones" (.obj [("seated", .bool false), ("noExtrusion", .bool false),
            ("interestInFood", .bool false), ("handToMouth", .bool false)]) (by decide)
            (by decide) (by simp [defaultFields]) rfl vx hlx
        · exact hsec "babyProfile" (.obj [("birthDate", .null), ("gestationWeeks", .null),
            ("dueDate", .null)]) (by decide) (by decide) (by simp [defaultFields]) rfl vx hlx
      · intro p hp
        have hpred := List.of_mem_filter hp
        simp only [Option.isNone_iff_eq_none] at hpred
        exact (lookupField?_eq_none_iff _ p.1).mp hpred
    rw [hstep1]
    rw [setField_same _ _ _ hvX]
    rw [setField_same _ _ _ (lookupField?_setField_self _ _ _)]

/-! ## Store operation lemmas -/

theorem writeStateToStorage_fst (now : String) (st : Store) (v : JsVal) :
    (writeStateToStorage now st v).1 = normalizeState now v := rfl

theorem writeStateToStorage_snd (now : String) (st : Store) (v : JsVal) :
    (writeStateToStorage now st v).2.state = some (normalizeState now v) := rfl

theorem ensureState_fst (now : String) (st : Store) :
    (ensureState now st).1 =
      normalizeState now ((migrateLegacyIfNeeded now st).state.getD .null) := by
  rw [ensureState]
  split <;> rfl

theorem ensureState_of_some (now : String) (st : Store) (r : JsVal)
    (h : st.state = some r) : ensureState now st = (normalizeState now r, st) := by
  have hm : migrateLegacyIfNeeded now st = st := by
    rw [migrateLegacyIfNeeded]
    simp [h]
  rw [ensureState, hm, readStateFromStorage, h]
  simp

theorem wf_seeded (now : String) (entries : List JsVal) :
    wf (setProp (getDefaultState now) "diary"
      (setProp (getProp (getDefaultState now) "diary") "entries" (.arr entries))) = true := by
  have h1 : setProp (getProp (getDefaultState now) "diary") "entries" (.arr entries)
      = .obj [("entries", .arr entries)] := rfl
  rw [h1]
  exact wf_setField _ "diary" _ (wf_default now) rfl

theorem wfStore_migrate (now : String) (st : Store) (hwf : WfStore st) :
    WfStore (migrateLegacyIfNeeded now st) := by
  intro r hr
  rw [migrateLegacyIfNeeded] at hr
  split at hr
  · exact hwf r hr
  · split at hr
    · rename_i entries heq
      split at hr
      · exact hwf r hr
      · have hr2 : some (normalizeState now (setProp (getDefaultState now) "diary"
            (setProp (getProp (getDefaultState now) "diary") "entries" (.arr entries))))
            = some r := hr
        rw [← Option.some_injective _ hr2]
        exact normalizeState_wf now _ (wf_seeded now entries)
    · exact hwf r hr

theorem ensureState_fst_wf_raw (now : String) (st : Store) (hwf : WfStore st) :
    ∃ raw, wf raw = true ∧ (ensureState now st).1 = normalizeState now raw := by
  refine ⟨(migrateLegacyIfNeeded now st).state.getD .null, ?_, ensureState_fst now st⟩
  cases hs : (migrateLegacyIfNeeded now st).state with
  | none => rfl
  | some r =>
      simp only [Option.getD]
      exact wfStore_migrate now st hwf r hs

/-! ## Claim theorems -/

/-- C2: for every milestone checklist (each of the four fields a boolean or
missing), `isComplete` returns true if and only if all four fields
(seated, noExtrusion, interestInFood, handToMouth) are true; any single
false field, and any missing field (treated as false), yields false. -/
theorem claim_C2_isComplete (m : JsVal) (h : checklistFieldsTyped m) :
    isCompleteChecklist m = true ↔
      getProp m "seated" = .bool true ∧ getProp m "noExtrusion" = .bool true ∧
      getProp m "interestInFood" = .bool true ∧ getProp m "handToMouth" = .bool true := by
  have conv : ∀ v : JsVal, (v = .undefined ∨ v = .bool true ∨ v = .bool false) →
      (v.truthy = true ↔ v = .bool true) := by
    intro v hv
    rcases hv with rfl | rfl | rfl <;> simp [JsVal.truthy]
  have hs := conv _ (h "seated" (by simp))
  have hn := conv _ (h "noExtrusion" (by simp))
  have hi := conv _ (h "interestInFood" (by simp))
  have hh := conv _ (h "handToMouth" (by simp))
  simp only [isCompleteChecklist, Bool.and_eq_true, hs, hn, hi, hh, and_assoc]

/-- Witness for C2 at a fully true checklist. -/
theorem claim_C2_witness :
    isCompleteChecklist (JsVal.obj [("seated", .bool true), ("noExtrusion", .bool true),
      ("interestInFood", .bool true), ("handToMouth", .bool true)]) = true := by
  apply (claim_C2_isComplete _ ?_).mpr
  · exact ⟨rfl, rfl, rfl, rfl⟩
  · intro k hk
    simp only [List.mem_cons, List.not_mem_nil, or_false] at hk
    rcases hk with rfl | rfl | rfl | rfl
    · exact Or.inr (Or.inl rfl)
    · exact Or.inr (Or.inl rfl)
    · exact Or.inr (Or.inl rfl)
    · exact Or.inr (Or.inl rfl)

/-- `normalizeState` replaces any non-object wholesale by the defaults. -/
theorem normalizeState_not_objlike (now : String) (r : JsVal)
    (h : notObjectLike r = true) : normalizeState now r = getDefaultState now := by
  cases r with
  | undefined => simp [normalizeState, JsVal.truthy, JsVal.typeofObject]
  | null => simp [normalizeState, JsVal.truthy, JsVal.typeofObject]
  | bool b => simp [normalizeState, JsVal.truthy, JsVal.typeofObject]
  | num n => simp [normalizeState, JsVal.truthy, JsVal.typeofObject]
  | str s => simp [normalizeState, JsVal.truthy, JsVal.typeofObject]
  | arr xs => simp [notObjectLike] at h
  | obj fs => simp [notObjectLike] at h

/-- C10: every state returned by getState, setState, resetState or a
successful importState carries version exactly 1, and a persisted raw
value that is not an object, or whose version tag differs from 1, is
replaced wholesale by the default state on read. -/
theorem claim_C10_version_invariant (now : String) (st : Store) :
    getProp (getState now st).1 "version" = .num 1 ∧
    (∀ part, getProp (setState now st part).1 "version" = .num 1) ∧
    getProp (resetState now st).1 "version" = .num 1 ∧
    (∀ doc s, (importState now st doc).1 = .ok s → getProp s "version" = .num 1) ∧
    (∀ r, st.state = some r → (notObjectLike r = true ∨ getProp r "version" ≠ .num 1) →
      readStateFromStorage now st = getDefaultState now) := by
  refine ⟨?_, ?_, ?_, ?_, ?_⟩
  · rw [getState, ensureState_fst]
    exact getProp_normalizeState_version now _
  · intro part
    have hfst : (setState now st part).1 = normalizeState now
        (mergeDeep (ensureState now st).1
          (if part.isPlainObject then part else .obj [])) := rfl
    rw [hfst]
    exact getProp_normalizeState_version now _
  · rw [resetState, ensureState_fst]
    exact getProp_normalizeState_version now _
  · intro doc s h
    rw [importState] at h
    cases hv : validateBackupState doc with
    | some e =>
        rw [hv] at h
        simp at h
    | none =>
        rw [hv] at h
        simp only [Except.ok.injEq] at h
        rw [← h, ensureState_fst]
        exact getProp_normalizeState_version now _
  · intro r hr hbad
    rw [readStateFromStorage, hr]
    simp only [Option.getD]
    rcases hbad with hb | hb
    · exact normalizeState_not_objlike now r hb
    · rcases normalizeState_cases now r with h | ⟨rf, hraw, hv, h⟩
      · exact h
      · exfalso
        apply hb
        subst hraw
        rw [getProp, lookupField_eq, hv]
        rfl

/-- Witness for C10's read-wholesale clause at a wrongly versioned raw. -/
theorem claim_C10_witness :
    readStateFromStorage "T" ⟨some (.obj [("version", .num 2)]), none⟩ =
      getDefaultState "T" :=
  (claim_C10_version_invariant "T" _).2.2.2.2 (.obj [("version", .num 2)]) rfl
    (Or.inr (by
      intro h
      rw [show getProp (JsVal.obj [("version", JsVal.num 2)]) "version" = JsVal.num 2
        from rfl] at h
      simp at h))

/-- A document accepted by `validateBackupState` has version 1 and all four
sections object-shaped. -/
theorem validate_none_sound (doc : JsVal) (h : validateBackupState doc = none) :
    (getProp doc "version").isNumOne = true ∧ sectionsObjectTyped doc = true := by
  rw [validateBackupState] at h
  split at h
  · cases h
  · split at h
    · cases h
    · split at h
      · cases h
      · split at h
        · cases h
        · split at h
          · cases h
          · split at h
            · cases h
            · next hc1 hc2 hc3 hc4 hc5 hc6 =>
                constructor
                · revert hc2
                  cases (getProp doc "version").isNumOne <;> simp
                · have b3 : ((getProp doc "diary").truthy &&
                      (getProp doc "diary").typeofObject) = true := by
                    revert hc3
                    cases ((getProp doc "diary").truthy &&
                      (getProp doc "diary").typeofObject) <;> simp
                  have b4 : ((getProp doc "allergens").truthy &&
                      (getProp doc "allergens").typeofObject) = true := by
                    revert hc4
                    cases ((getProp doc "allergens").truthy &&
                      (getProp doc "allergens").typeofObject) <;> simp
                  have b5 : ((getProp doc "milestones").truthy &&
                      (getProp doc "milestones").typeofObject) = true := by
                    revert hc5
                    cases ((getProp doc "milestones").truthy &&
                      (getProp doc "milestones").typeofObject) <;> simp
                  have b6 : ((getProp doc "babyProfile").truthy &&
                      (getProp doc "babyProfile").typeofObject) = true := by
                    revert hc6
                    cases ((getProp doc "babyProfile").truthy &&
                      (getProp doc "babyProfile").typeofObject) <;> simp
                  simp [sectionsObjectTyped, requiredSections, b3, b4, b5, b6]

/-- C6: for every import document whose version tag is missing or differs
from 1, or with a required top-level section (diary, allergens,
milestones, babyProfile) missing or not object-shaped, `importState`
rejects with the structural error computed by `validateBackupState` and
the persisted store is left unchanged — no write happens before
validation succeeds. -/
theorem claim_C6_import_rejects (now : String) (st : Store) (doc : JsVal)
    (h : backupDocDefective doc = true) :
    (importState now st doc).2 = st ∧
    validateBackupState doc ≠ none ∧
    (importState now st doc).1 = .error ((validateBackupState doc).getD "") := by
  have hne : validateBackupState doc ≠ none := by
    intro hnone
    obtain ⟨hver, hsec⟩ := validate_none_sound doc hnone
    rw [backupDocDefective, hver] at h
    simp only [Bool.not_true, Bool.false_or] at h
    simp only [sectionsObjectTyped, requiredSections, List.all_cons, List.all_nil,
      Bool.and_eq_true] at hsec
    obtain ⟨h1, h2, h3, h4, _⟩ := hsec
    simp [requiredSections, h1, h2, h3, h4] at h
  refine ⟨?_, hne, ?_⟩ <;>
    (cases hv : validateBackupState doc with
     | none => exact absurd hv hne
     | some e => rw [importState, hv]; try rfl)

/-- Witness for C6: a document missing the milestones section is rejected
and leaves the store unchanged. -/
theorem claim_C6_witness :
    backupDocDefective (.obj [("version", .num 1), ("diary", .obj []),
      ("allergens", .obj []), ("babyProfile", .obj [])]) = true ∧
    (importState "T" ⟨none, none⟩ (.obj [("version", .num 1), ("diary", .obj []),
      ("allergens", .obj []), ("babyProfile", .obj [])])).2 = ⟨none, none⟩ :=
  ⟨rfl, (claim_C6_import_rejects "T" ⟨none, none⟩
    (.obj [("version", .num 1), ("diary", .obj []), ("allergens", .obj []),
      ("babyProfile", .obj [])]) rfl).1⟩

/-- Counterexample to C7 as stated: `setState` accepts a partial that sets
`diary` to the number 5, yielding a reachable current store state whose
export fails re-import validation ("Falta diary") instead of returning a
state deep-equal to it — so `import(export())` does not round-trip for
every current store state. -/
theorem claim_C7_counterexample :
    getProp (exportState "T" (setState "T" ⟨none, none⟩
      (.obj [("diary", .num 5)])).2).1 "diary" = .num 5 ∧
    (importState "T"
      (exportState "T" (setState "T" ⟨none, none⟩ (.obj [("diary", .num 5)])).2).2
      (exportState "T" (setState "T" ⟨none, none⟩ (.obj [("diary", .num 5)])).2).1).1
      = Except.error "Falta diary" :=
  ⟨rfl, rfl⟩

/-- C7 (amended): for every store whose persisted state value is
well-formed and whose exported state has all four sections object-shaped,
importing the exported document succeeds and returns a state equal to the
exported one. -/
theorem claim_C7_roundtrip_amended (now : String) (st : Store) (hwf : WfStore st)
    (hsec : sectionsObjectTyped (exportState now st).1 = true) :
    (importState now (exportState now st).2 (exportState now st).1).1 =
      Except.ok (exportState now st).1 := by
  obtain ⟨raw, hwraw, hS⟩ := ensureState_fst_wf_raw now st hwf
  rw [exportState] at hsec ⊢
  have hobj : ∃ fs, (ensureState now st).1 = .obj fs := by
    rw [hS]
    rcases normalizeState_cases now raw with h | ⟨rf, _, _, h⟩
    · exact ⟨defaultFields now, by rw [h]; rfl⟩
    · exact ⟨_, h⟩
  obtain ⟨fs, hfs⟩ := hobj
  have hver : (getProp (ensureState now st).1 "version").isNumOne = true := by
    rw [hS, getProp_normalizeState_version]
    rfl
  have hval : validateBackupState (ensureState now st).1 = none := by
    simp only [sectionsObjectTyped, requiredSections, List.all_cons, List.all_nil,
      Bool.and_eq_true, Bool.and_true] at hsec
    obtain ⟨h1, h2, h3, h4⟩ := hsec
    rw [validateBackupState]
    rw [if_neg (by rw [hfs]; simp [JsVal.truthy, JsVal.typeofObject])]
    rw [if_neg (by rw [hver]; simp)]
    rw [if_neg (by rw [h1.1, h1.2]; simp)]
    rw [if_neg (by rw [h2.1, h2.2]; simp)]
    rw [if_neg (by rw [h3.1, h3.2]; simp)]
    rw [if_neg (by rw [h4.1, h4.2]; simp)]
  have hidem : normalizeState now (ensureState now st).1 = (ensureState now st).1 := by
    rw [hS]
    exact normalizeState_idem now raw hwraw
  simp only [importState, hval]
  have hslot : (writeStateToStorage now (ensureState now st).2
      (ensureState now st).1).2.state = some (ensureState now st).1 := by
    rw [writeStateToStorage_snd, hidem]
  rw [ensureState_of_some now _ _ hslot]
  simp only [Except.ok.injEq]
  exact hidem

/-- Witness for C7 (amended) at the empty store. -/
theorem claim_C7_witness :
    (importState "T" (exportState "T" ⟨none, none⟩).2 (exportState "T" ⟨none, none⟩).1).1 =
      Except.ok (exportState "T" ⟨none, none⟩).1 :=
  claim_C7_roundtrip_amended "T" ⟨none, none⟩ (by intro r hr; simp at hr) rfl

/-- Keys absent from the merge source keep their target binding. -/
theorem mergeFields_frame (sf : JsFields) : ∀ (tf : JsFields) (k : String),
    lookupField? sf k = none →
    lookupField? (mergeFields tf sf) k = lookupField? tf k := by
  induction sf with
  | nil =>
      intro tf k _
      rfl
  | cons p rest ih =>
      intro tf k h
      obtain ⟨k0, v⟩ := p
      have hk : ¬(k0 = k) := by
        intro he
        rw [lookupField?, if_pos he] at h
        cases h
      rw [lookupField?, if_neg hk] at h
      rw [mergeFields, ih _ k h]
      exact lookupField?_setField_ne tf k0 k _ (fun he => hk he.symm)

/-- Merging fresh-keyed fields into `out` appends them. -/
theorem mergeFields_disjoint (X : JsFields) : ∀ out : JsFields,
    (keysOf X).Nodup → (∀ p ∈ X, lookupField? out p.1 = none) →
    mergeFields out X = out ++ X := by
  induction X with
  | nil =>
      intro out _ _
      simp [mergeFields]
  | cons p rest ih =>
      intro out hN hdisj
      obtain ⟨k, v⟩ := p
      rw [keysOf_cons] at hN
      have hlk : lookupField out k = .undefined := by
        rw [lookupField_eq, hdisj (k, v) (List.mem_cons_self _ _)]
        rfl
      have hmv : mergeDeep JsVal.undefined v = v := by cases v <;> rfl
      rw [mergeFields, hlk, hmv, setField_of_none out k v (hdisj (k, v) (List.mem_cons_self _ _))]
      rw [ih (out ++ [(k, v)]) (List.nodup_cons.mp hN).2]
      · simp
      · intro p hp
        have hpk : p.1 ≠ k := by
          intro he
          apply (List.nodup_cons.mp hN).1
          rw [← he]
          exact List.mem_map.mpr ⟨p, hp, rfl⟩
        rw [lookupField?_append_right out _ p.1 (hdisj p (List.mem_cons_of_mem _ hp))]
        simp [lookupField?, Ne.symm hpk]

/-- Looking up a mapped merged field. -/
theorem lookupField?_map_mergedField (src fs : JsFields) (hN : (keysOf fs).Nodup)
    (k : String) (dv : JsVal) (hmem : (k, dv) ∈ fs) :
    lookupField? (fs.map (mergedField src)) k = some ((mergedField src (k, dv)).2) := by
  have hNmap : (keysOf (fs.map (mergedField src))).Nodup := by
    rw [keysOf_map_mergedField]
    exact hN
  have hmm : mergedField src (k, dv) ∈ fs.map (mergedField src) :=
    List.mem_map.mpr ⟨(k, dv), hmem, rfl⟩
  have hlm := lookupField?_of_mem _ _ hmm hNmap
  simpa [mergedField] using hlm

/-- Re-merging an object over its own spread-updated copy returns the
updated copy unchanged (the JS `{...statuses, [id]: status}` pattern). -/
theorem mergeFields_setField_self_absorb (sts : JsFields) (id : String) (v : JsVal)
    (hw : wf (.obj sts) = true) (hvnp : v.isPlainObject = false) :
    mergeFields sts (setField sts id v) = setField sts id v := by
  have hN := wf_keysOf_nodup sts hw
  have hNX : (keysOf (setField sts id v)).Nodup :=
    wf_keysOf_nodup _ (wf_setField sts id v hw (wf_not_obj v hvnp))
  rw [mergeFields_eq (setField sts id v) sts hN hNX]
  cases hin : lookupField? sts id with
  | some w =>
      have hkeys : keysOf (setField sts id v) = keysOf sts :=
        keysOf_setField_of_some sts id v w hin
      have hfil : (setField sts id v).filter (fun p => (lookupField? sts p.1).isNone) = [] := by
        rw [List.filter_eq_nil_iff]
        intro p hp
        have hpk : p.1 ∈ keysOf sts := by
          rw [← hkeys]
          exact List.mem_map.mpr ⟨p, hp, rfl⟩
        cases hl : lookupField? sts p.1 with
        | none => exact absurd ((lookupField?_eq_none_iff sts p.1).mp hl) (by simp [hpk])
        | some w2 => simp
      rw [hfil, List.append_nil]
      have hcong : ∀ p ∈ sts, mergedField (setField sts id v) p =
          (if p.1 = id then (id, v) else p) := by
        intro p hp
        by_cases hpk : p.1 = id
        · have hl : lookupField? (setField sts id v) p.1 = some v := by
            rw [hpk]
            exact lookupField?_setField_self sts id v
          simp only [mergedField, hl, if_pos hpk]
          rw [mergeDeep_eq_source p.2 v (fun hc => by rw [hvnp] at hc; cases hc.2)]
          simp [hpk]
        · have hl : lookupField? (setField sts id v) p.1 = some p.2 := by
            rw [lookupField?_setField_ne sts id p.1 v hpk]
            exact lookupField?_of_mem sts p hp hN
          simp only [mergedField, hl, if_neg hpk]
          rw [mergeDeep_self p.2 (((wf_obj_iff sts).mp hw).2 p hp)]
      rw [List.map_congr_left hcong]
      exact (setField_eq_map sts id v w hN hin).symm
  | none =>
      have hset : setField sts id v = sts ++ [(id, v)] := setField_of_none sts id v hin
      have hidk : id ∉ keysOf sts := (lookupField?_eq_none_iff sts id).mp hin
      have hfil : (setField sts id v).filter (fun p => (lookupField? sts p.1).isNone)
          = [(id, v)] := by
        rw [hset, List.filter_append]
        have h1 : sts.filter (fun p => (lookupField? sts p.1).isNone) = [] := by
          rw [List.filter_eq_nil_iff]
          intro p hp
          rw [lookupField?_of_mem sts p hp hN]
          simp
        have h2 : List.filter (fun p => (lookupField? sts p.1).isNone) [(id, v)]
            = [(id, v)] := by
          simp [List.filter_cons, hin]
        rw [h1, h2, List.nil_append]
      rw [hfil]
      have hmap : sts.map (mergedField (setField sts id v)) = sts := by
        have hcong : ∀ p ∈ sts, mergedField (setField sts id v) p = p := by
          intro p hp
          have hpk : p.1 ≠ id := by
            intro he
            apply hidk
            rw [← he]
            exact List.mem_map.mpr ⟨p, hp, rfl⟩
          have hl : lookupField? (setField sts id v) p.1 = some p.2 := by
            rw [lookupField?_setField_ne sts id p.1 v hpk]
            exact lookupField?_of_mem sts p hp hN
          simp only [mergedField, hl]
          rw [mergeDeep_self p.2 (((wf_obj_iff sts).mp hw).2 p hp)]
        rw [List.map_congr_left hcong]
        exact List.map_id sts
      rw [hmap, hset]

/-- Reading a non-timestamp default key off a valid normalized state gives
the deep merge of its default with the raw value. -/
theorem getProp_normalizeState_valid (now : String) (rf : JsFields) (k : String)
    (dv : JsVal) (hv : lookupField? rf "version" = some (.num 1))
    (hNrf : (keysOf rf).Nodup) (hmem : (k, dv) ∈ defaultFields now)
    (hk1 : k ≠ "version") (hk2 : k ≠ "updatedAt") :
    getProp (normalizeState now (.obj rf)) k = (mergedField rf (k, dv)).2 := by
  rw [normalizeState_valid_obj now rf hv, getProp, lookupField_eq,
    lookupField?_setField_ne _ _ _ _ hk2, lookupField?_setField_ne _ _ _ _ hk1]
  rw [mergeFields_eq rf (defaultFields now) (nodup_defaultFields now) hNrf]
  rw [lookupField?_append_left _ _ _ _
    (lookupField?_map_mergedField rf (defaultFields now) (nodup_defaultFields now) k dv hmem)]
  rfl

/-- After `ensureState`, the state slot holds a well-formed value that
normalizes to the returned state. -/
theorem ensureState_post (now : String) (st : Store) (hwf : WfStore st) :
    ∃ r, (ensureState now st).2.state = some r ∧
      normalizeState now r = (ensureState now st).1 ∧ wf r = true := by
  have hwf1 := wfStore_migrate now st hwf
  cases hs : (migrateLegacyIfNeeded now st).state with
  | some r =>
      have hens : ensureState now st =
          (normalizeState now r, migrateLegacyIfNeeded now st) := by
        rw [ensureState, readStateFromStorage, hs]
        simp
      rw [hens]
      exact ⟨r, hs, rfl, hwf1 r hs⟩
  | none =>
      have hens : ensureState now st =
          (normalizeState now .null,
            (writeStateToStorage now (migrateLegacyIfNeeded now st)
              (normalizeState now .null)).2) := by
        rw [ensureState, readStateFromStorage, hs]
        simp
      rw [hens]
      refine ⟨normalizeState now (normalizeState now .null),
        writeStateToStorage_snd now _ _, ?_, normalizeState_wf now _ rfl⟩
      rw [normalizeState_idem now .null rfl, normalizeState_idem now .null rfl]

/-- `ensureState` is stable: running it on its own output store returns
the same state and store. -/
theorem ensureState_stable (now : String) (st : Store) (hwf : WfStore st) :
    ensureState now (ensureState now st).2 =
      ((ensureState now st).1, (ensureState now st).2) := by
  obtain ⟨r, hr, hnorm, _⟩ := ensureState_post now st hwf
  rw [ensureState_of_some now _ r hr, hnorm]

/-- Looking up a target key in a merge result. -/
theorem lookupField?_mergeFields_of_mem (out src : JsFields)
    (hNo : (keysOf out).Nodup) (hNs : (keysOf src).Nodup) (k : String) (dv : JsVal)
    (hmem : (k, dv) ∈ out) :
    lookupField? (mergeFields out src) k = some ((mergedField src (k, dv)).2) := by
  rw [mergeFields_eq src out hNo hNs]
  exact lookupField?_append_left _ _ _ _
    (lookupField?_map_mergedField src out hNo k dv hmem)

/-- C9: `setState` deep-merges its partial (keys absent from the partial
keep their current binding at every object level), so setting the status
of one allergen leaves every other allergen's status unchanged: the
resulting statuses record is exactly the old record with only the one key
overridden in place. -/
theorem claim_C9_deep_merge_frame (now : String) (st : Store) (id status : String)
    (hwf : WfStore st) (hid : id ≠ "") (sts : JsFields)
    (hsts : getProp (getProp (getState now st).1 "allergens") "statuses" = .obj sts) :
    (∀ (tf sf : JsFields) (k : String), lookupField? sf k = none →
      lookupField? (mergeFields tf sf) k = lookupField? tf k) ∧
    getProp (getProp (setStatus now st id status).1 "allergens") "statuses" =
      .obj (setField sts id (.str status)) ∧
    (∀ k, k ≠ id →
      lookupField? (setField sts id (.str status)) k = lookupField? sts k) := by
  refine ⟨fun tf sf k h => mergeFields_frame sf tf k h, ?_,
    fun k hk => lookupField?_setField_ne sts id k _ hk⟩
  rw [getState] at hsts
  obtain ⟨raw, hwraw, hS⟩ := ensureState_fst_wf_raw now st hwf
  have hwS : wf (ensureState now st).1 = true := by
    rw [hS]
    exact normalizeState_wf now raw hwraw
  have hverS : getProp (ensureState now st).1 "version" = .num 1 := by
    rw [hS]
    exact getProp_normalizeState_version now raw
  -- structure of the current state
  obtain ⟨Sf, hSf⟩ : ∃ Sf, (ensureState now st).1 = .obj Sf := by
    cases hc : (ensureState now st).1 with
    | obj fs => exact ⟨fs, rfl⟩
    | undefined => rw [hc] at hsts; cases hsts
    | null => rw [hc] at hsts; cases hsts
    | bool b => rw [hc] at hsts; cases hsts
    | num n => rw [hc] at hsts; cases hsts
    | str s => rw [hc] at hsts; cases hsts
    | arr xs => rw [hc] at hsts; cases hsts
  rw [hSf] at hsts hwS hverS
  obtain ⟨af, haf⟩ : ∃ af, lookupField Sf "allergens" = .obj af := by
    rw [getProp] at hsts
    cases hc : lookupField Sf "allergens" with
    | obj fs => exact ⟨fs, rfl⟩
    | undefined => rw [hc] at hsts; cases hsts
    | null => rw [hc] at hsts; cases hsts
    | bool b => rw [hc] at hsts; cases hsts
    | num n => rw [hc] at hsts; cases hsts
    | str s => rw [hc] at hsts; cases hsts
    | arr xs => rw [hc] at hsts; cases hsts
  have hstsv : lookupField af "statuses" = .obj sts := by
    rw [getProp, haf, getProp] at hsts
    exact hsts
  -- option-valued versions of the lookups
  have haf? : lookupField? Sf "allergens" = some (.obj af) := by
    cases hq : lookupField? Sf "allergens" with
    | none => rw [lookupField_eq, hq] at haf; cases haf
    | some w =>
        rw [lookupField_eq, hq] at haf
        simp only [Option.getD] at haf
        rw [haf]
  have hsts? : lookupField? af "statuses" = some (.obj sts) := by
    cases hq : lookupField? af "statuses" with
    | none => rw [lookupField_eq, hq] at hstsv; cases hstsv
    | some w =>
        rw [lookupField_eq, hq] at hstsv
        simp only [Option.getD] at hstsv
        rw [hstsv]
  have hver? : lookupField? Sf "version" = some (.num 1) := by
    rw [getProp] at hverS
    cases hq : lookupField? Sf "version" with
    | none => rw [lookupField_eq, hq] at hverS; cases hverS
    | some w =>
        rw [lookupField_eq, hq] at hverS
        simp only [Option.getD] at hverS
        rw [hverS]
  -- well-formedness of the nested records
  have hwaf : wf (.obj af) = true := wf_of_lookup Sf "allergens" _ hwS haf?
  have hwsts : wf (.obj sts) = true := wf_of_lookup af "statuses" _ hwaf hsts?
  -- the partial sent to setState
  have h1 : setStatus now st id status =
      setState now (ensureState now st).2
        (.obj [("allergens", .obj [("statuses",
          .obj (setField sts id (.str status)))])]) := by
    rw [setStatus, if_neg hid]
    simp only [hSf, getProp, haf, hstsv, JsVal.isPlainObject, if_true]
  have h2 : (setStatus now st id status).1 =
      normalizeState now (mergeDeep (JsVal.obj Sf)
        (.obj [("allergens", .obj [("statuses",
          .obj (setField sts id (.str status)))])])) := by
    rw [h1, setState, ensureState_stable now st hwf]
    rw [hSf]
    rfl
  -- the merged next state
  have hnext : mergeDeep (JsVal.obj Sf)
      (.obj [("allergens", .obj [("statuses", .obj (setField sts id (.str status)))])])
      = .obj (setField Sf "allergens" (.obj (setField af "statuses"
          (.obj (setField sts id (.str status)))))) := by
    rw [mergeDeep_obj_obj]
    congr 1
    rw [mergeFields, mergeFields]
    congr 1
    rw [haf, mergeDeep_obj_obj]
    congr 1
    rw [mergeFields, mergeFields]
    congr 1
    rw [hstsv, mergeDeep_obj_obj]
    congr 1
    exact mergeFields_setField_self_absorb sts id (.str status) hwsts rfl
  rw [h2, hnext]
  -- well-formedness of the merged state
  have hwX : wf (.obj (setField sts id (.str status))) = true :=
    wf_setField sts id (.str status) hwsts rfl
  have hwY : wf (.obj (setField af "statuses"
      (.obj (setField sts id (.str status))))) = true :=
    wf_setField af "statuses" _ hwaf hwX
  have hwN : wf (.obj (setField Sf "allergens" (.obj (setField af "statuses"
      (.obj (setField sts id (.str status))))))) = true :=
    wf_setField Sf "allergens" _ hwS hwY
  have hNn : (keysOf (setField Sf "allergens" (.obj (setField af "statuses"
      (.obj (setField sts id (.str status))))))).Nodup :=
    wf_keysOf_nodup _ hwN
  -- version of the merged state
  have hverN : lookupField? (setField Sf "allergens" (.obj (setField af "statuses"
      (.obj (setField sts id (.str status)))))) "version" = some (.num 1) := by
    rw [lookupField?_setField_ne _ _ _ _ (by decide)]
    exact hver?
  -- the allergens record of the normalized result
  have hgA := getProp_normalizeState_valid now _ "allergens" (.obj [("statuses", .obj [])])
    hverN hNn (by simp [defaultFields]) (by decide) (by decide)
  rw [hgA]
  have hlA : lookupField? (setField Sf "allergens" (.obj (setField af "statuses"
      (.obj (setField sts id (.str status)))))) "allergens"
      = some (.obj (setField af "statuses" (.obj (setField sts id (.str status))))) :=
    lookupField?_setField_self Sf "allergens" _
  simp only [mergedField, hlA]
  rw [mergeDeep_obj_obj, getProp]
  have hlS : lookupField? (mergeFields [("statuses", .obj [])]
      (setField af "statuses" (.obj (setField sts id (.str status))))) "statuses"
      = some ((mergedField (setField af "statuses" (.obj (setField sts id (.str status))))
          ("statuses", .obj [])).2) := by
    apply lookupField?_mergeFields_of_mem
    · simp [keysOf]
    · exact wf_keysOf_nodup _ hwY
    · simp
  rw [lookupField_eq, hlS]
  have hlY : lookupField? (setField af "statuses" (.obj (setField sts id (.str status))))
      "statuses" = some (.obj (setField sts id (.str status))) :=
    lookupField?_setField_self af "statuses" _
  simp only [mergedField, hlY]
  rw [mergeDeep_obj_obj]
  rw [mergeFields_disjoint _ [] (wf_keysOf_nodup _ hwX) (fun p _ => rfl)]
  rfl

/-- Witness for C9: setting leche leaves huevo untouched. -/
theorem claim_C9_witness :
    getProp (getProp (setStatus "T" ⟨some (.obj [("version", .num 1),
      ("allergens", .obj [("statuses", .obj [("huevo", .str "ok")])])]), none⟩
      "leche" "mild").1 "allergens") "statuses"
      = .obj [("huevo", .str "ok"), ("leche", .str "mild")] :=
  (claim_C9_deep_merge_frame "T" ⟨some (.obj [("version", .num 1),
      ("allergens", .obj [("statuses", .obj [("huevo", .str "ok")])])]), none⟩
    "leche" "mild"
    (fun r hr => by
      injection hr with h
      rw [← h]
      rfl)
    (by decide) [("huevo", .str "ok")] rfl).2.1

/-- `monthsBetweenUtc` computes the spec's month-difference formula. -/
theorem monthsBetween_eq_spec (a b : UtcDate) :
    monthsBetweenUtc a b = monthDiffSpec a b := by
  rw [monthsBetweenUtc, monthDiffSpec]
  by_cases h : b.day < a.day <;> simp [h]

/-- C4: a profile without (or with unparseable) birth date yields the
unknown safe age; with a parseable birth date and no applicable
prematurity correction, the safe age is the calendar-month difference
between the birth date and today in UTC, subtracting one month when
today's day-of-month is earlier than the birth day-of-month, floored at
zero. -/
theorem claim_C4_chronological_age (p : BabyProfile) (today : UtcDate) :
    getSafeAgeMonths none today = none ∧
    (p.birthDate = none → getSafeAgeMonths (some p) today = none) ∧
    (∀ b, p.birthDate = some b →
      (∀ g d, p.gestationWeeks = some g → p.dueDate = some d → ¬(0 < g ∧ g < 37)) →
      getSafeAgeMonths (some p) today = some (monthDiffSpec b today)) := by
  refine ⟨rfl, ?_, ?_⟩
  · intro hb
    simp [getSafeAgeMonths, hb]
  · intro b hb hnc
    simp only [getSafeAgeMonths, hb]
    cases hg : p.gestationWeeks with
    | none => simp [monthsBetween_eq_spec]
    | some g =>
        cases hd : p.dueDate with
        | none =>
            cases hpre : (decide (0 < g) && decide (g < 37)) <;>
              simp [monthsBetween_eq_spec]
        | some d =>
            have hfalse : (decide (0 < g) && decide (g < 37)) = false := by
              have hng := hnc g d hg hd
              cases h1 : decide (0 < g) with
              | false => simp
              | true =>
                  cases h2 : decide (g < 37) with
                  | false => simp
                  | true =>
                      exact absurd ⟨of_decide_eq_true h1, of_decide_eq_true h2⟩ hng
            simp [hfalse, monthsBetween_eq_spec]

/-- Witness for C4 at spec example 1: born 2024-01-10, today 2024-08-10. -/
theorem claim_C4_witness :
    getSafeAgeMonths (some ⟨some ⟨2024, 0, 10⟩, none, none⟩) ⟨2024, 7, 10⟩ = some 7 := by
  rw [(claim_C4_chronological_age ⟨some ⟨2024, 0, 10⟩, none, none⟩ ⟨2024, 7, 10⟩).2.2
    ⟨2024, 0, 10⟩ rfl (fun g d hg _ => by cases hg)]
  rfl

/-- Counterexample to C3 as stated: a preterm profile (32 weeks) with a
parseable due date but no birth date returns unknown, not the whole-month
difference from the due date (which here is 5 months). -/
theorem claim_C3_counterexample :
    getSafeAgeMonths (some ⟨none, some 32, some ⟨2024, 2, 1⟩⟩) ⟨2024, 7, 1⟩ = none ∧
    monthsBetweenUtc ⟨2024, 2, 1⟩ ⟨2024, 7, 1⟩ = 5 := by
  exact ⟨rfl, by decide⟩

/-- C3 (amended): for every profile whose birth date is present and
parseable, whose gestation-weeks is a number strictly between 0 and 37 and
whose probable-due-date is present and parseable, the safe age is the
whole-month difference from the due date to today — the corrected value
fully replaces the chronological one, ignoring the birth date's value —
floored at zero even when the due date is after today. -/
theorem claim_C3_corrected_age (p : BabyProfile) (today : UtcDate) (b D : UtcDate)
    (g : Int) (hb : p.birthDate = some b) (hg : p.gestationWeeks = some g)
    (h1 : 0 < g) (h2 : g < 37) (hd : p.dueDate = some D) :
    getSafeAgeMonths (some p) today = some (monthDiffSpec D today) := by
  simp only [getSafeAgeMonths, hb, hg, hd]
  have hpre : (decide (0 < g) && decide (g < 37)) = true := by simp [h1, h2]
  simp [hpre, monthsBetween_eq_spec]

/-- Witness for C3 at spec example 2: 32 weeks gestation, due 2024-03-01,
today 2024-08-01, arbitrary birth date — safe age 5 months. -/
theorem claim_C3_witness :
    getSafeAgeMonths (some ⟨some ⟨2024, 0, 15⟩, some 32, some ⟨2024, 2, 1⟩⟩)
      ⟨2024, 7, 1⟩ = some 5 := by
  rw [claim_C3_corrected_age ⟨some ⟨2024, 0, 15⟩, some 32, some ⟨2024, 2, 1⟩⟩
    ⟨2024, 7, 1⟩ ⟨2024, 0, 15⟩ ⟨2024, 2, 1⟩ 32 rfl rfl (by norm_num) (by norm_num) rfl]
  rfl

/-- Counterexample to C5 as stated: a record with a non-numeric
minimum-eligible-age is included by the `renderFoodList` filter predicate
(claimed to exclude it), while `getAllowedFoodsBySafeAge` excludes it. -/
theorem claim_C5_counterexample :
    renderFoodItems [⟨"foo", "Foo", "", none, false⟩] (some 6) none "" =
      [⟨"foo", "Foo", "", none, false⟩] ∧
    getAllowedFoodsBySafeAge [⟨"foo", "Foo", "", none, false⟩] (some 6) = [] :=
  ⟨rfl, rfl⟩

/-- C5 (amended): `getAllowedFoodsBySafeAge` returns exactly the records
whose numeric minimum age is ≤ the safe age (non-numeric minimum ages
excluded) and the empty list when the safe age is unknown; the rendered
food list is also empty when the safe age is unknown and its predicate
rejects every record with a numeric minimum age above the safe age, but —
unlike the claim — it accepts records with a non-numeric minimum age when
no age bracket is selected. -/
theorem claim_C5_eligibility_filter (catalog : List Food) (m : Int) :
    (∀ f, f ∈ getAllowedFoodsBySafeAge catalog (some m) ↔
      f ∈ catalog ∧ ∃ v, f.edad_minima = some v ∧ v ≤ m) ∧
    getAllowedFoodsBySafeAge catalog none = [] ∧
    (∀ range q, renderFoodItems catalog none range q = []) ∧
    (∀ f range q v, f.edad_minima = some v → m < v →
      renderFoodPred m range q f = false) ∧
    (∀ f, f.edad_minima = none → renderFoodPred m none "" f = true) := by
  refine ⟨?_, rfl, fun range q => rfl, ?_, ?_⟩
  · intro f
    rw [getAllowedFoodsBySafeAge, List.mem_filter]
    constructor
    · rintro ⟨hmem, hle⟩
      cases he : f.edad_minima with
      | none =>
          rw [he] at hle
          simp only [nanLe] at hle
          exact absurd hle Bool.false_ne_true
      | some v =>
          rw [he] at hle
          simp only [nanLe] at hle
          exact ⟨hmem, v, rfl, of_decide_eq_true hle⟩
    · rintro ⟨hmem, v, he, hv⟩
      refine ⟨hmem, ?_⟩
      rw [he]
      simp only [nanLe]
      exact decide_eq_true hv
  · intro f range q v he hv
    have hgt : nanGt f.edad_minima m = true := by
      rw [he]
      simp only [nanGt]
      exact decide_eq_true hv
    simp [renderFoodPred, hgt]
  · intro f he
    simp [renderFoodPred, he, nanGt]
    exact Or.inl rfl

/-- Witness for C5: an 8-month food is rejected at safe age 6, a 6-month
food is a member of the eligible set (spec example 1). -/
theorem claim_C5_witness :
    renderFoodPred 6 none "" ⟨"pasta", "Pasta", "cereal", some 8, false⟩ = false ∧
    (⟨"aguacate", "Aguacate", "fruta", some 6, false⟩ ∈
      getAllowedFoodsBySafeAge [⟨"aguacate", "Aguacate", "fruta", some 6, false⟩]
        (some 6)) :=
  ⟨(claim_C5_eligibility_filter [] 6).2.2.2.1 ⟨"pasta", "Pasta", "cereal", some 8, false⟩
      none "" 8 rfl (by norm_num),
    ((claim_C5_eligibility_filter [⟨"aguacate", "Aguacate", "fruta", some 6, false⟩] 6).1
      ⟨"aguacate", "Aguacate", "fruta", some 6, false⟩).mpr
      ⟨by simp, 6, rfl, by norm_num⟩⟩

/-- Counterexample to C1 as stated: with all milestones complete and safe
age 6, saving a food id that does not resolve in the catalog succeeds
(the entry is saved) instead of failing with `FoodIneligible`; the
non-empty-reference check also runs before the eligibility check. -/
theorem claim_C1_counterexample :
    daySaveOutcome (.obj [("milestones", .obj [("seated", .bool true),
      ("noExtrusion", .bool true), ("interestInFood", .bool true),
      ("handToMouth", .bool true)])]) (some 6)
      [⟨"platano", "Platano", "fruta", some 6, false⟩] "fantasma"
      = SaveOutcome.saved :=
  rfl

/-- C1 (amended): the save preconditions run in the order milestone gate
(`MilestonesIncomplete`), safe age known (`ProfileIncomplete`), non-empty
trimmed food reference (`ValidationError`), then eligibility: the save
fails with `FoodIneligible` exactly when the id resolves in the catalog to
a finite minimum age greater than the safe age; a non-empty id that does
not resolve in the catalog passes the check and the entry is saved.  A
save with milestones incomplete always fails with `MilestonesIncomplete`
regardless of the food. -/
theorem claim_C1_save_chain (state : JsVal) (safe : Option Int)
    (catalog : List Food) (raw : String) :
    (isCompleteState state = false →
      daySaveOutcome state safe catalog raw = .milestonesIncomplete) ∧
    (isCompleteState state = true → safe = none →
      daySaveOutcome state safe catalog raw = .profileIncomplete) ∧
    (∀ m, isCompleteState state = true → safe = some m → jsTrim raw = "" →
      daySaveOutcome state safe catalog raw = .validationError) ∧
    (∀ m f a, isCompleteState state = true → safe = some m → jsTrim raw ≠ "" →
      catalog.find? (fun g => g.id == jsTrim raw) = some f → f.edad_minima = some a →
      m < a → daySaveOutcome state safe catalog raw = .foodIneligible) ∧
    (∀ m f a, isCompleteState state = true → safe = some m → jsTrim raw ≠ "" →
      catalog.find? (fun g => g.id == jsTrim raw) = some f → f.edad_minima = some a →
      a ≤ m → daySaveOutcome state safe catalog raw = .saved) ∧
    (∀ m f, isCompleteState state = true → safe = some m → jsTrim raw ≠ "" →
      catalog.find? (fun g => g.id == jsTrim raw) = some f → f.edad_minima = none →
      daySaveOutcome state safe catalog raw = .saved) ∧
    (∀ m, isCompleteState state = true → safe = some m → jsTrim raw ≠ "" →
      catalog.find? (fun g => g.id == jsTrim raw) = none →
      daySaveOutcome state safe catalog raw = .saved) := by
  refine ⟨?_, ?_, ?_, ?_, ?_, ?_, ?_⟩
  · intro hm
    simp [daySaveOutcome, hm]
  · intro hm hs
    simp [daySaveOutcome, hm, hs]
  · intro m hm hs he
    have hemp : (jsTrim raw).isEmpty = true := by
      rw [he]
      rfl
    simp [daySaveOutcome, hm, hs, hemp]
  · intro m f a hm hs hne hfind hmin hlt
    have hemp : (jsTrim raw).isEmpty = false := by
      cases hq : (jsTrim raw).isEmpty with
      | false => rfl
      | true => exact absurd ((String.isEmpty_iff (jsTrim raw)).mp hq) hne
    simp [daySaveOutcome, hm, hs, hemp, hfind, hmin, hlt]
  · intro m f a hm hs hne hfind hmin hle
    have hemp : (jsTrim raw).isEmpty = false := by
      cases hq : (jsTrim raw).isEmpty with
      | false => rfl
      | true => exact absurd ((String.isEmpty_iff (jsTrim raw)).mp hq) hne
    simp [daySaveOutcome, hm, hs, hemp, hfind, hmin, not_lt.mpr hle]
  · intro m f hm hs hne hfind hmin
    have hemp : (jsTrim raw).isEmpty = false := by
      cases hq : (jsTrim raw).isEmpty with
      | false => rfl
      | true => exact absurd ((String.isEmpty_iff (jsTrim raw)).mp hq) hne
    simp [daySaveOutcome, hm, hs, hemp, hfind, hmin]
  · intro m hm hs hne hfind
    have hemp : (jsTrim raw).isEmpty = false := by
      cases hq : (jsTrim raw).isEmpty with
      | false => rfl
      | true => exact absurd ((String.isEmpty_iff (jsTrim raw)).mp hq) hne
    simp [daySaveOutcome, hm, hs, hemp, hfind]

/-- Witness for C1: a food whose minimum age exceeds the safe age is
rejected as out of range. -/
theorem claim_C1_witness :
    daySaveOutcome (.obj [("milestones", .obj [("seated", .bool true),
      ("noExtrusion", .bool true), ("interestInFood", .bool true),
      ("handToMouth", .bool true)])]) (some 6)
      [⟨"nuez", "Nuez", "fruto", some 12, false⟩] "nuez"
      = SaveOutcome.foodIneligible :=
  (claim_C1_save_chain _ (some 6) [⟨"nuez", "Nuez", "fruto", some 12, false⟩]
    "nuez").2.2.2.1 6 ⟨"nuez", "Nuez", "fruto", some 12, false⟩ 12 rfl rfl
    (by decide) rfl rfl (by norm_num)

/-! ## Diary upsert lemmas -/

theorem findIdx?_add (p : DiaryEntry → Bool) :
    ∀ (l : List DiaryEntry) (s : Nat),
    List.findIdx? p l s = (List.findIdx? p l).map (fun j => j + s) := by
  intro l
  induction l with
  | nil => intro s; rfl
  | cons a as ih =>
      intro s
      rw [List.findIdx?_cons, List.findIdx?_cons]
      by_cases hpa : p a
      · simp [hpa]
      · rw [if_neg hpa, if_neg hpa, ih (s + 1), ih 1]
        cases hq : List.findIdx? p as 0
        · simp
        · simp
          omega

theorem findIdx?_spec (p : DiaryEntry → Bool) :
    ∀ (l : List DiaryEntry) (i : Nat), List.findIdx? p l = some i →
    ∃ e, l[i]? = some e ∧ p e = true := by
  intro l
  induction l with
  | nil =>
      intro i h
      cases h
  | cons a as ih =>
      intro i h
      rw [List.findIdx?_cons] at h
      by_cases hpa : p a
      · rw [if_pos hpa] at h
        injection h with h
        exact ⟨a, by rw [← h]; simp, hpa⟩
      · rw [if_neg hpa, findIdx?_add p as 1] at h
        cases hq : List.findIdx? p as with
        | none => rw [hq] at h; cases h
        | some j =>
            rw [hq] at h
            simp only [Option.map] at h
            injection h with h
            obtain ⟨e, he, hpe⟩ := ih j hq
            refine ⟨e, ?_, hpe⟩
            rw [← h]
            simpa using he

theorem findIdx?_isSome_of_mem (p : DiaryEntry → Bool) :
    ∀ (l : List DiaryEntry) (e : DiaryEntry), e ∈ l → p e = true →
    ∃ i, List.findIdx? p l = some i := by
  intro l
  induction l with
  | nil =>
      intro e he _
      cases he
  | cons a as ih =>
      intro e he hpe
      rw [List.findIdx?_cons]
      by_cases hpa : p a
      · exact ⟨0, by rw [if_pos hpa]⟩
      · rw [if_neg hpa, findIdx?_add p as 1]
        rcases List.mem_cons.mp he with rfl | hmem
        · exact absurd hpe hpa
        · obtain ⟨j, hj⟩ := ih e hmem hpe
          exact ⟨j + 1, by rw [hj]; rfl⟩

theorem nodup_ids_inj (l : List DiaryEntry)
    (hN : (l.map (fun e => e.id)).Nodup) :
    ∀ a ∈ l, ∀ b ∈ l, a.id = b.id → a = b := by
  induction l with
  | nil =>
      intro a ha
      cases ha
  | cons x xs ih =>
      intro a ha b hb hab
      rw [List.map_cons, List.nodup_cons] at hN
      rcases List.mem_cons.mp ha with rfl | ha' <;>
        rcases List.mem_cons.mp hb with rfl | hb'
      · rfl
      · exact absurd (List.mem_map.mpr ⟨b, hb', hab.symm⟩) hN.1
      · exact absurd (List.mem_map.mpr ⟨a, ha', hab⟩) hN.1
      · exact ih hN.2 a ha' b hb' hab

theorem getElem?_lt (l : List DiaryEntry) (i : Nat) (a : DiaryEntry)
    (h : l[i]? = some a) : i < l.length := by
  by_contra hc
  rw [List.getElem?_eq_none (Nat.le_of_not_lt hc)] at h
  cases h

/-- C8: saving an entry with a non-empty id whose id already occurs in the
collection replaces the matching entry in place — same array position,
length preserved, every other position untouched, and the id sequence
(hence no duplicate id) unchanged; with no matching id the entry is
appended.  In the composed day-save flow, editing an existing entry keeps
its original `createdAt` and replaces it at its position. -/
theorem claim_C8_upsert (entries : List DiaryEntry) (E : DiaryEntry)
    (hid : E.id ≠ "") :
    ((∀ i, entries.findIdx? (fun e => e.id == E.id) = some i →
      upsertEntry entries E = entries.take i ++ [E] ++ entries.drop (i + 1) ∧
      (upsertEntry entries E).length = entries.length ∧
      (upsertEntry entries E)[i]? = some E ∧
      (∀ j, j ≠ i → (upsertEntry entries E)[j]? = entries[j]?) ∧
      (upsertEntry entries E).map (fun e => e.id) = entries.map (fun e => e.id)) ∧
    (entries.findIdx? (fun e => e.id == E.id) = none →
      upsertEntry entries E = entries ++ [E])) ∧
    (∀ (all : List DiaryEntry) (dateStr eid foodId q fm r notes now freshId : String)
      (ed : DiaryEntry),
      (all.map (fun e => e.id)).Nodup →
      (all.filter (fun e => e.date == dateStr)).find? (fun e => e.id == eid) = some ed →
      jsTrim ed.id = ed.id → ed.id ≠ "" → ed.createdAt ≠ "" →
      (buildDayEntry (some ed) dateStr foodId q fm r notes now freshId).createdAt
        = ed.createdAt ∧
      (buildDayEntry (some ed) dateStr foodId q fm r notes now freshId).id = ed.id ∧
      ∃ i, all.findIdx? (fun e =>
          e.id == (buildDayEntry (some ed) dateStr foodId q fm r notes now freshId).id)
          = some i ∧
        all[i]? = some ed ∧
        daySaveEntries all dateStr (some eid) foodId q fm r notes now freshId
          = all.take i ++
            [buildDayEntry (some ed) dateStr foodId q fm r notes now freshId] ++
            all.drop (i + 1)) := by
  have hempty : E.id.isEmpty = false := by
    cases hq : E.id.isEmpty with
    | false => rfl
    | true => exact absurd ((String.isEmpty_iff E.id).mp hq) hid
  refine ⟨⟨?_, ?_⟩, ?_⟩
  · intro i hf
    have hup : upsertEntry entries E =
        entries.take i ++ [E] ++ entries.drop (i + 1) := by
      rw [upsertEntry, if_neg (by rw [hempty]; exact Bool.false_ne_true), hf]
    obtain ⟨e, he, hpe⟩ := findIdx?_spec _ entries i hf
    have hilen : i < entries.length := getElem?_lt entries i e he
    have htklen : (entries.take i).length = i := by
      rw [List.length_take]
      omega
    have hlen1 : (entries.take i ++ [E]).length = i + 1 := by
      rw [List.length_append, htklen]
      rfl
    refine ⟨hup, ?_, ?_, ?_, ?_⟩
    · rw [hup]
      simp only [List.length_append, List.length_take, List.length_drop,
        List.length_cons, List.length_nil]
      omega
    · rw [hup, List.getElem?_append_left (by omega : i < (entries.take i ++ [E]).length)]
      rw [List.getElem?_append_right (le_of_eq htklen)]
      rw [htklen]
      simp
    · intro j hj
      rw [hup]
      rcases Nat.lt_or_ge j i with hji | hji
      · rw [List.getElem?_append_left (by omega : j < (entries.take i ++ [E]).length)]
        rw [List.getElem?_append_left (by omega : j < (entries.take i).length)]
        rw [List.getElem?_take]
        rw [if_pos hji]
      · have hji' : i < j := lt_of_le_of_ne hji (Ne.symm hj)
        rw [List.getElem?_append_right (by omega : (entries.take i ++ [E]).length ≤ j)]
        rw [List.getElem?_drop, hlen1]
        congr 1
        omega
    · have heid : e.id = E.id := by simpa using hpe
      have hgete : entries[i] = e := by
        rw [List.getElem?_eq_getElem hilen] at he
        injection he
      rw [hup]
      conv_rhs => rw [← List.take_append_drop i entries]
      rw [List.drop_eq_getElem_cons hilen, hgete]
      simp [heid]
  · intro hf
    rw [upsertEntry, if_neg (by rw [hempty]; exact Bool.false_ne_true), hf]
  · intro all dateStr eid foodId q fm r notes now freshId ed hN hfind htrim hedid hcr
    have hed_mem : ed ∈ all :=
      List.mem_of_mem_filter (List.mem_of_find?_eq_some hfind)
    have he1 : ed.id.isEmpty = false := by
      cases hq : ed.id.isEmpty with
      | false => rfl
      | true => exact absurd ((String.isEmpty_iff ed.id).mp hq) hedid
    have hc1 : ed.createdAt.isEmpty = false := by
      cases hq : ed.createdAt.isEmpty with
      | false => rfl
      | true => exact absurd ((String.isEmpty_iff ed.createdAt).mp hq) hcr
    have hidE : (buildDayEntry (some ed) dateStr foodId q fm r notes now freshId).id
        = ed.id := by
      simp [buildDayEntry, htrim, he1]
    have hcrE : (buildDayEntry (some ed) dateStr foodId q fm r notes now
        freshId).createdAt = ed.createdAt := by
      simp [buildDayEntry, hc1]
    refine ⟨hcrE, hidE, ?_⟩
    have hpe : (ed.id ==
        (buildDayEntry (some ed) dateStr foodId q fm r notes now freshId).id)
        = true := by
      rw [hidE]
      simp
    obtain ⟨i, hi⟩ := findIdx?_isSome_of_mem
      (fun e => e.id ==
        (buildDayEntry (some ed) dateStr foodId q fm r notes now freshId).id)
      all ed hed_mem hpe
    refine ⟨i, hi, ?_, ?_⟩
    · obtain ⟨e', he', hpe'⟩ := findIdx?_spec _ all i hi
      have he'eq : e' = ed := by
        apply nodup_ids_inj all hN e' (List.getElem?_mem he') ed hed_mem
        simpa [hidE] using hpe'
      rw [he', he'eq]
    · rw [daySaveEntries]
      simp only [hfind]
      have hempE : (buildDayEntry (some ed) dateStr foodId q fm r notes now
          freshId).id.isEmpty = false := by
        rw [hidE]
        exact he1
      rw [upsertEntry, if_neg (by rw [hempE]; exact Bool.false_ne_true), hi]

theorem claim_C8_witness :
    w8E.id ≠ "" ∧
    upsertEntry [w8e1, w8e2] w8E = [w8E, w8e2] ∧
    (upsertEntry [w8e1, w8e2] w8E).map (fun e => e.id)
      = [w8e1, w8e2].map (fun e => e.id) ∧
    (buildDayEntry (some w8e1) "2025-01-02" "aguacate" "tastes" "mashed"
      "neutral" "ok" "N" "fresh").createdAt = w8e1.createdAt ∧
    daySaveEntries [w8e1, w8e2] "2025-01-02" (some "e1") "aguacate" "tastes"
      "mashed" "neutral" "ok" "N" "fresh"
      = [w8e1, w8e2].take 0 ++
        [buildDayEntry (some w8e1) "2025-01-02" "aguacate" "tastes" "mashed"
          "neutral" "ok" "N" "fresh"] ++ [w8e1, w8e2].drop 1 := by
  have h := claim_C8_upsert [w8e1, w8e2] w8E (by decide)
  have h1 := h.1.1 0 rfl
  have h2 := h.2 [w8e1, w8e2] "2025-01-02" "e1" "aguacate" "tastes" "mashed"
    "neutral" "ok" "N" "fresh" w8e1 (by decide) rfl rfl (by decide) (by decide)
  refine ⟨by decide, h1.1.trans rfl, h1.2.2.2.2, h2.1, ?_⟩
  obtain ⟨i, hi, hgi, hds⟩ := h2.2.2
  have hfi : ([w8e1, w8e2].findIdx? (fun e => e.id ==
      (buildDayEntry (some w8e1) "2025-01-02" "aguacate" "tastes" "mashed"
        "neutral" "ok" "N" "fresh").id)) = some 0 := rfl
  have hi0 : i = 0 := Option.some.inj (hi.symm.trans hfi)
  subst hi0
  exact hds
